import Mathlib

/-!
Verification of the z-tavern realtime speech stack against its design
specification.  The Go sources under `internal/service/speech`,
`internal/analysis/emotion` and the TTS client are shallowly embedded:
bytes are `Nat` values `< 256`, Go `int32` is `Int` with explicit
wrap-around, strings on the wire are byte lists, and the stream decoder
is a state-passing function over the remaining byte list.
-/

deriving instance DecidableEq for Except

namespace Speech

/-- Wire protocol version (`ProtocolVersion` in protocol.go). -/
def ProtocolVersion : Nat := 1

/-- Message type constants (4-bit values from protocol.go). -/
def FullClientRequest : Nat := 1
def AudioOnlyRequest : Nat := 2
def FullServerResponse : Nat := 9
def AudioOnlyServerResponse : Nat := 11
def ErrorMessage : Nat := 15

/-- Message flag constants (4-bit values from protocol.go). -/
def NoSequenceNumber : Nat := 0
def PositiveSequenceNumber : Nat := 1
def LastPacketNoSequence : Nat := 2
def NegativeSequenceNumber : Nat := 3
def WithEvent : Nat := 4

/-- Serialization / compression method constants. -/
def NoSerialization : Nat := 0
def JSONSerialization : Nat := 1
def NoCompression : Nat := 0
def GzipCompression : Nat := 1

/-- The `Header` struct of protocol.go; each field is the numeric value of
the corresponding Go `uint8` (the nibble fields hold values `< 16`). -/
structure Header where
  protocolVersion : Nat
  headerSize : Nat
  messageType : Nat
  messageFlags : Nat
  serializationMethod : Nat
  compressionMethod : Nat
  reserved : Nat
deriving DecidableEq, Repr

/-- The `Message` struct of protocol.go.  `sequence` and `eventType` are Go
`int32` values, the id strings are byte lists, `errorCode`/`payloadSize`
are `uint32` values. -/
structure Message where
  header : Header
  sequence : Int
  eventType : Int
  sessionID : List Nat
  connectID : List Nat
  errorCode : Nat
  payloadSize : Nat
  payload : List Nat
deriving DecidableEq, Repr

/-- `NewHeader` from protocol.go: version 1, header size one 4-byte word. -/
def NewHeader (msgType flags serialization compression : Nat) : Header :=
  ⟨ProtocolVersion, 1, msgType, flags, serialization, compression, 0⟩

/-- Big-endian `uint32` encoding (`binary.BigEndian.PutUint32`). -/
def uint32BE (n : Nat) : List Nat :=
  [n / 2 ^ 24 % 256, n / 2 ^ 16 % 256, n / 2 ^ 8 % 256, n % 256]

/-- Big-endian `uint32` decoding of a 4-byte list (`binary.BigEndian.Uint32`). -/
def be32 : List Nat → Nat
  | [a, b, c, d] => ((a * 256 + b) * 256 + c) * 256 + d
  | _ => 0

/-- Go `uint32(i)` for an `int32` value: two's-complement reinterpretation. -/
def u32ofInt (i : Int) : Nat := (i % (2 ^ 32 : Int)).toNat

/-- Reinterpret a `uint32` value as a Go `int32`. -/
def toInt32 (n : Nat) : Int := if n < 2 ^ 31 then (n : Int) else (n : Int) - 2 ^ 32

/-- Go `int32` wrap-around of an arbitrary integer (used for `-sequence`). -/
def wrap32 (i : Int) : Int := (i + 2 ^ 31) % 2 ^ 32 - 2 ^ 31

/-- `header.MessageFlags & 0b0011` selects a sequence field
(cases `PositiveSequenceNumber`, `NegativeSequenceNumber`). -/
def hasSequence (flags : Nat) : Bool :=
  flags &&& 3 == PositiveSequenceNumber || flags &&& 3 == NegativeSequenceNumber

/-- `header.MessageFlags & WithEvent == WithEvent`. -/
def withEventFlag (flags : Nat) : Bool := flags &&& 4 == WithEvent

/-- `eventSkipsSessionID` from protocol.go. -/
def eventSkipsSessionID (event : Int) : Bool :=
  event == 1 || event == 2 || event == 50 || event == 51 || event == 52

/-- `eventHasConnectID` from protocol.go. -/
def eventHasConnectID (event : Int) : Bool :=
  event == 50 || event == 51 || event == 52

/-- `Header.Encode`: the 4 header bytes, each nibble pair packed with
shift-and-or exactly as in the Go source (`uint8` arithmetic). -/
def Header.encode (h : Header) : List Nat :=
  [ ((h.protocolVersion <<< 4) % 256) ||| (h.headerSize % 256),
    ((h.messageType <<< 4) % 256) ||| (h.messageFlags % 256),
    ((h.serializationMethod <<< 4) % 256) ||| (h.compressionMethod % 256),
    h.reserved % 256 ]

/-- Sequence segment written by `EncodeMessage`. -/
def encodeSeq (flags : Nat) (sequence : Int) : List Nat :=
  if hasSequence flags then uint32BE (u32ofInt sequence) else []

/-- Event-metadata segment written by `EncodeMessage`. -/
def encodeEvent (flags : Nat) (eventType : Int) (sessionID connectID : List Nat) :
    List Nat :=
  if withEventFlag flags then
    uint32BE (u32ofInt eventType)
      ++ (if eventSkipsSessionID eventType then []
          else uint32BE sessionID.length ++ sessionID)
      ++ (if eventHasConnectID eventType then
            uint32BE connectID.length ++ connectID
          else [])
  else []

/-- `EncodeMessage` from protocol.go: header bytes, optional sequence,
optional event metadata, payload size, payload.  Note that the Go encoder
never writes the error-code word, even for `ErrorMessage` frames. -/
def EncodeMessage (m : Message) : List Nat :=
  m.header.encode
    ++ encodeSeq m.header.messageFlags m.sequence
    ++ encodeEvent m.header.messageFlags m.eventType m.sessionID m.connectID
    ++ uint32BE m.payloadSize
    ++ m.payload

/-- State-passing decoder over the remaining byte list; `io.Reader` errors
become `Except.error`. -/
def DecM (α : Type) : Type := List Nat → Except String (α × List Nat)

instance : Monad DecM where
  pure a := fun bs => .ok (a, bs)
  bind x f := fun bs =>
    match x bs with
    | .error e => .error e
    | .ok (a, rest) => f a rest

/-- `io.ReadFull` on a byte list: reads exactly `n` bytes or errors. -/
def readBytes (n : Nat) : DecM (List Nat) := fun bs =>
  if n ≤ bs.length then .ok (bs.take n, bs.drop n) else .error "unexpected end of input"

/-- Lift a pure fallible computation into the decoder. -/
def liftE (r : Except String α) : DecM α := fun bs =>
  match r with
  | .ok a => .ok (a, bs)
  | .error e => .error e

/-- `DecodeHeader` from protocol.go: needs at least 4 bytes, splits nibble
fields with shift and mask, rejects an unsupported version. -/
def DecodeHeader (data : List Nat) : Except String Header :=
  match data with
  | b0 :: b1 :: b2 :: b3 :: _ =>
    let h : Header :=
      ⟨(b0 >>> 4) &&& 15, b0 &&& 15, (b1 >>> 4) &&& 15, b1 &&& 15,
        (b2 >>> 4) &&& 15, b2 &&& 15, b3⟩
    if h.protocolVersion ≠ ProtocolVersion then .error "unsupported protocol version"
    else .ok h
  | _ => .error "header data too short"

/-- Read a big-endian `uint32`. -/
def readU32 : DecM Nat := do
  let bs ← readBytes 4
  pure (be32 bs)

/-- Read a big-endian `int32` (`binary.Read` into an `int32`). -/
def readInt32 : DecM Int := do
  let bs ← readBytes 4
  pure (toInt32 (be32 bs))

/-- Optional sequence word of `DecodeMessage`. -/
def decodeSeq (flags : Nat) : DecM Int :=
  if hasSequence flags then readInt32 else pure 0

/-- Read `size` bytes when the declared size is positive (`DecodeMessage`
only reads id/payload bytes behind a positive declared size). -/
def readSized (size : Nat) : DecM (List Nat) :=
  if 0 < size then readBytes size else pure []

/-- Length-prefixed id segment of `DecodeMessage` (session id / connect id):
a `uint32` size, then that many bytes; a zero size leaves the id empty. -/
def decodeSizedBytes : DecM (List Nat) := do
  let size ← readU32
  readSized size

/-- Session-id part of the event block (skipped for connection events). -/
def decodeSessionPart (et : Int) : DecM (List Nat) :=
  if eventSkipsSessionID et then pure [] else decodeSizedBytes

/-- Connect-id part of the event block (present only for connection
started/failed/finished events). -/
def decodeConnectPart (et : Int) : DecM (List Nat) :=
  if eventHasConnectID et then decodeSizedBytes else pure []

/-- Event-metadata block of `DecodeMessage`. -/
def decodeEvent (flags : Nat) : DecM (Int × List Nat × List Nat) :=
  if withEventFlag flags then do
    let et ← readInt32
    let sid ← decodeSessionPart et
    let cid ← decodeConnectPart et
    pure (et, sid, cid)
  else pure ((0 : Int), ([] : List Nat), ([] : List Nat))

/-- Payload metadata of `DecodeMessage`: `ErrorMessage` frames carry a
4-byte error code before the payload size. -/
def decodePayloadMeta (msgType : Nat) : DecM (Nat × Nat) :=
  if msgType == ErrorMessage then do
    let code ← readU32
    let size ← readU32
    pure (code, size)
  else do
    let size ← readU32
    pure ((0 : Nat), size)

/-- `DecodeMessage` from protocol.go, faithful to the Go control flow:
header, declared extra header words (consumed as padding), optional
sequence, optional event block, payload metadata, payload bytes. -/
def DecodeMessage : DecM Message := do
  let hb ← readBytes 4
  let h ← liftE (DecodeHeader hb)
  let _ ← readSized (h.headerSize * 4 - 4)
  let seq ← decodeSeq h.messageFlags
  let ev ← decodeEvent h.messageFlags
  let meta ← decodePayloadMeta h.messageType
  let payload ← readSized meta.2
  pure ⟨h, seq, ev.1, ev.2.1, ev.2.2, meta.1, meta.2, payload⟩

/-- `CreateFullClientRequest` from protocol.go. -/
def CreateFullClientRequest (payload : List Nat) (compression : Nat) : Message :=
  ⟨NewHeader FullClientRequest NoSequenceNumber JSONSerialization compression,
    0, 0, [], [], 0, payload.length, payload⟩

/-- `CreateAudioOnlyRequest` from protocol.go: a terminal chunk with a
nonzero sequence gets the negative-sequence flag and a negated sequence;
a terminal chunk with sequence 0 gets the no-sequence terminal flag. -/
def CreateAudioOnlyRequest (audioData : List Nat) (sequence : Int) (isLast : Bool)
    (compression : Nat) : Message :=
  let fs : Nat × Int :=
    if isLast then
      if sequence ≠ 0 then (NegativeSequenceNumber, wrap32 (-sequence))
      else (LastPacketNoSequence, sequence)
    else
      if 0 < sequence then (PositiveSequenceNumber, sequence)
      else (NoSequenceNumber, sequence)
  ⟨NewHeader AudioOnlyRequest fs.1 NoSerialization compression,
    fs.2, 0, [], [], 0, audioData.length, audioData⟩

/-- `Message.IsLastPacket` from protocol.go: the low two flag bits select a
terminal variant. -/
def Message.IsLastPacket (m : Message) : Bool :=
  m.header.messageFlags &&& 3 == LastPacketNoSequence ||
    m.header.messageFlags &&& 3 == NegativeSequenceNumber

/-- Header fields hold the values a Go `Header` can carry with the
supported version and the minimal 4-byte header that `Encode` produces. -/
def ValidHeader (h : Header) : Prop :=
  h.protocolVersion = ProtocolVersion ∧ h.headerSize = 1 ∧ h.messageType < 16 ∧
    h.messageFlags < 16 ∧ h.serializationMethod < 16 ∧ h.compressionMethod < 16 ∧
    h.reserved < 256

/-- A frame whose fields are consistent with its flags: optional fields are
zero/empty unless the flags (or the event type) call for them, `int32`
fields are in range, declared sizes match actual byte counts. -/
def ValidMessage (m : Message) : Prop :=
  ValidHeader m.header ∧
    (if hasSequence m.header.messageFlags then
      -(2 ^ 31) ≤ m.sequence ∧ m.sequence < 2 ^ 31
    else m.sequence = 0) ∧
    (if withEventFlag m.header.messageFlags then
      (-(2 ^ 31) ≤ m.eventType ∧ m.eventType < 2 ^ 31) ∧
        (if eventSkipsSessionID m.eventType then m.sessionID = []
         else m.sessionID.length < 2 ^ 32) ∧
        (if eventHasConnectID m.eventType then m.connectID.length < 2 ^ 32
         else m.connectID = [])
    else m.eventType = 0 ∧ m.sessionID = [] ∧ m.connectID = []) ∧
    (m.header.messageType = ErrorMessage ∨ m.errorCode = 0) ∧ m.errorCode < 2 ^ 32 ∧
    m.payloadSize = m.payload.length ∧ m.payload.length < 2 ^ 32

instance (m : Message) : Decidable (ValidMessage m) := by
  unfold ValidMessage ValidHeader
  infer_instance

/-- Boolean success test for a decoder result. -/
def isOkB : Except String (α × List Nat) → Bool
  | .ok _ => true
  | .error _ => false

/-- A decoder consumes a determined leading segment of its input: on success
the consumed bytes are a prefix, and running on that prefix followed by any
other continuation succeeds identically. -/
def ExtOK (x : DecM α) : Prop :=
  ∀ bs a rest, x bs = .ok (a, rest) →
    ∃ c, bs = c ++ rest ∧ ∀ ext, x (c ++ ext) = .ok (a, ext)

/-- Fixed ASR chunk size (`chunkSize` in volcengine_asr.go):
16 kHz × 16-bit × mono × 200 ms = 6400 bytes. -/
def chunkSize : Nat := 6400

/-- Frame emission of the `sendAudioData` loop (volcengine_asr.go 276-314):
the audio is walked in `chunkSize` slices; `compress` stands for the
per-chunk `CompressPayload` call (gzip compression of a byte slice cannot
fail); each slice becomes a `CreateAudioOnlyRequest` carrying the running
sequence counter, terminal exactly when at most `chunkSize` bytes remain,
and the loop breaks after the terminal chunk. -/
def sendAudioFrames (compress : List Nat → List Nat) (audio : List Nat) (seq : Int) :
    List Message :=
  if h : audio = [] then []
  else
    CreateAudioOnlyRequest (compress (audio.take chunkSize)) seq
        (decide (audio.length ≤ chunkSize)) GzipCompression ::
      (if audio.length ≤ chunkSize then []
       else sendAudioFrames compress (audio.drop chunkSize) (seq + 1))
termination_by audio.length
decreasing_by
  have hpos : 0 < audio.length := List.length_pos.mpr h
  simp only [List.length_drop, chunkSize]
  omega

/-- `sendAudioData` (volcengine_asr.go 254-317) restricted to its observable
frame sequence: empty audio is rejected with an error before any send;
otherwise the chunks are sent with the sequence counter starting at 2 (the
FullClientRequest occupies sequence 1). -/
def sendAudioData (compress : List Nat → List Nat) (audio : List Nat) :
    Except String (List Message) :=
  if audio = [] then .error "no audio data to send"
  else .ok (sendAudioFrames compress audio 2)

/-- Failure classification for `ConnectWithRetry`: the context error, or the
exhaustion error wrapping the last dial error. -/
inductive RetryError (E : Type) where
  | ctxCancelled : RetryError E
  | exhausted : Option E → RetryError E
deriving DecidableEq

/-- The retry loop of `ConnectWithRetry` (connection.go 115-141) as a pure
trace function over the list of remaining attempt indices.  `dial i` is the
result of dial attempt `i` (a connection abstracted as a handle);
`cancelAfterDial i` models `ctx.Err() != nil` observed right after a failed
attempt `i`; `cancelInWait i` models the context firing during the backoff
wait that follows attempt `i`.  The result triple is (outcome, number of
attempts made, backoff delays fully waited, in seconds — attempt `i` is
followed by a `i+1` second delay). -/
def retryLoop {E : Type} (dial : Nat → Except E Nat)
    (cancelAfterDial cancelInWait : Nat → Bool) :
    List Nat → Option E → Except (RetryError E) Nat × Nat × List Nat
  | [], last => (.error (.exhausted last), 0, [])
  | i :: rest, _ =>
    match dial i with
    | .ok c => (.ok c, 1, [])
    | .error e =>
      if cancelAfterDial i then (.error .ctxCancelled, 1, [])
      else if cancelInWait i then (.error .ctxCancelled, 1, [])
      else
        let r := retryLoop dial cancelAfterDial cancelInWait rest (some e)
        (r.1, r.2.1 + 1, (i + 1) :: r.2.2)

/-- `ConnectWithRetry` (connection.go 115-141): up to `maxRetries` attempts,
with a linearly growing backoff of `i+1` seconds after attempt `i`. -/
def ConnectWithRetry {E : Type} (maxRetries : Nat) (dial : Nat → Except E Nat)
    (cancelAfterDial cancelInWait : Nat → Bool) :
    Except (RetryError E) Nat × Nat × List Nat :=
  retryLoop dial cancelAfterDial cancelInWait (List.range maxRetries) none

/-- First-match association-list lookup: the read of the Go
`connections[sessionID]` map entry (the map is modelled as an association
list whose keys are kept distinct). -/
def findConn : List (String × Nat) → String → Option Nat
  | [], _ => none
  | (k, v) :: rest, s => if k = s then some v else findConn rest s

/-- Map store `connections[sessionID] = conn`: replace the existing binding
or append a fresh one. -/
def setConn : List (String × Nat) → String → Nat → List (String × Nat)
  | [], s, c => [(s, c)]
  | (k, v) :: rest, s, c =>
    if k = s then (s, c) :: rest else (k, v) :: setConn rest s c

/-- `ConnectionManager` (connection.go 12-16): the id→connection map plus
the set of connections on which `Close()` has been called (connections are
abstracted as numeric handles). -/
structure ConnectionManager where
  connections : List (String × Nat)
  closed : List Nat
deriving DecidableEq

/-- `AddConnection` (connection.go 26-36): close the previously pooled
connection for this session id if one exists, then store the new one. -/
def AddConnection (cm : ConnectionManager) (sessionID : String) (conn : Nat) :
    ConnectionManager :=
  match findConn cm.connections sessionID with
  | some old => ⟨setConn cm.connections sessionID conn, old :: cm.closed⟩
  | none => ⟨setConn cm.connections sessionID conn, cm.closed⟩

/-- `GetConnection` (connection.go 39-45). -/
def GetConnection (cm : ConnectionManager) (sessionID : String) : Option Nat :=
  findConn cm.connections sessionID

end Speech

/-- Does `hay` start with `needle`?  Helper for the byte/rune substring
tests (`strings.Contains`, `strings.HasPrefix`) used by the Go sources. -/
def substrAt : List Char → List Char → Bool
  | _, [] => true
  | [], _ :: _ => false
  | c :: cs, d :: ds => c == d && substrAt cs ds

/-- Go `strings.Contains hay needle` over rune lists: `needle` occurs
contiguously somewhere in `hay` (the empty needle always matches). -/
def containsStr : List Char → List Char → Bool
  | [], needle => substrAt [] needle
  | c :: rest, needle => substrAt (c :: rest) needle || containsStr rest needle

namespace TTS

/-- Result of one `SynthesizeSpeechWS` call: a response, an upstream error,
or the generic no-compatible-candidate error. -/
inductive Outcome (E R : Type) where
  | ok : R → Outcome E R
  | fail : E → Outcome E R
  | noCandidate : Outcome E R
deriving DecidableEq

/-- Result of the inner resource loop: an early return, or exhaustion with
the recorded mismatch error of the group. -/
inductive InnerResult (E R : Type) where
  | done : Outcome E R → InnerResult E R
  | exhausted : Option E → InnerResult E R
deriving DecidableEq

/-- `isResourceMismatchError` (part_006, 432-439): the upstream error text
contains the fixed resource-mismatch phrase. -/
def isResourceMismatchError (err : String) : Bool :=
  containsStr err.toList
    "resource ID is mismatched with speaker related resource".toList

/-- Inner resource-candidate loop of `SynthesizeSpeechWS` (part_006, 96-115),
abstracted over the per-attempt network call: a success returns immediately;
a mismatch error is recorded in `mismatchErr` and the next resource is
tried; any other error returns immediately. -/
def innerLoop {α E R : Type} (attempt : α → Except E R) (isMismatch : E → Bool) :
    List α → Option E → InnerResult E R
  | [], m => .exhausted m
  | c :: cs, _ =>
    match attempt c with
    | .ok r => .done (.ok r)
    | .error e =>
      if isMismatch e then innerLoop attempt isMismatch cs (some e)
      else .done (.fail e)

/-- Outer voice-candidate loop plus the final error selection of
`SynthesizeSpeechWS` (part_006, 92-127): each voice group runs the inner
loop with a fresh `mismatchErr`; a group that exhausted with a recorded
mismatch updates `lastMismatch`; once all groups are exhausted the call
fails with `lastMismatch` when set, else with the generic no-candidate
error. -/
def speakerLoop {α E R : Type} (attempt : α → Except E R) (isMismatch : E → Bool) :
    List (List α) → Option E → Outcome E R
  | [], last =>
    match last with
    | some e => .fail e
    | none => .noCandidate
  | g :: rest, last =>
    match innerLoop attempt isMismatch g none with
    | .done r => r
    | .exhausted m =>
      speakerLoop attempt isMismatch rest
        (match m with | some e => some e | none => last)

/-- `SynthesizeSpeechWS` (part_006, 69-128) abstracted over the per-attempt
call: iterate the voice×resource candidate groups. -/
def SynthesizeSpeechWS {α E R : Type} (attempt : α → Except E R)
    (isMismatch : E → Bool) (speakers : List (List α)) : Outcome E R :=
  speakerLoop attempt isMismatch speakers none

/-- The same iteration over the flattened candidate list, used to relate the
grouped loop to the flat visit order. -/
def flatLoop {α E R : Type} (attempt : α → Except E R) (isMismatch : E → Bool) :
    List α → Option E → Outcome E R
  | [], last =>
    match last with
    | some e => .fail e
    | none => .noCandidate
  | c :: cs, last =>
    match attempt c with
    | .ok r => .ok r
    | .error e =>
      if isMismatch e then flatLoop attempt isMismatch cs (some e)
      else .fail e

end TTS

namespace Emotion

/-- The TTS emotion labels (`Label` constants in analyzer.go). -/
inductive Label where
  | neutral | happy | sad | angry | excited | tender | comfort | magnetic
deriving DecidableEq, Repr

/-- `Decision` from analyzer.go.  Go stores the scale in a `float32`; the
values computed here are small dyadic rationals on which `float32`
arithmetic is exact, so the scale is embedded in `ℚ`. -/
structure Decision where
  emotion : Label
  scale : ℚ
  score : Nat
deriving DecidableEq, Repr

/-- `keywordBuckets` from analyzer.go, in source order. -/
def keywords : Label → List String
  | .happy =>
    ["开心", "高兴", "喜悦", "快乐", "兴奋", "太好了", "太棒了", "真棒", "哈哈",
      "lol", "amazing", "awesome", "great", "thanks", "thank you", "love", "喜欢",
      "满意", "满意的", "好耶", "笑死", "开心的"]
  | .sad =>
    ["难过", "伤心", "失落", "沮丧", "悲伤", "哭", "痛苦", "寂寞", "孤单", "忧",
      "失望", "伤心欲绝", "unhappy", "sad", "cry", "depressed", "tragedy", "upset",
      "hurt", "sorrow", "心碎", "低落", "委屈"]
  | .angry =>
    ["生气", "愤怒", "火大", "气死", "怒", "烦死", "受够了", "炸", "怒火", "气愤",
      "抓狂", "怒不可遏", "angry", "furious", "rage", "mad", "annoyed", "pissed",
      "outrage", "storm off", "气炸", "爆炸"]
  | .excited =>
    ["期待", "激动", "太酷了", "震撼", "惊喜", "哇塞", "哇哦", "can\x27t wait",
      "can\x27t wait", "superb", "unbelievable", "hype", "燃", "热血", "热血沸腾",
      "兴奋", "酷", "给力", "炸裂", "wow", "惊艳", "太妙了"]
  | .tender =>
    ["温柔", "轻声", "慢慢", "柔和", "柔软", "soft", "gentle", "calm", "平静",
      "放松", "轻柔", "柔情", "细腻", "温和", "暖", "softly", "抚慰", "抚摸",
      "静静", "小心", "谨慎", "轻轻", "温软"]
  | .comfort =>
    ["别担心", "没事", "我懂", "理解", "支持", "陪着", "抱抱", "不要怕", "安心",
      "安慰", "放松", "陪伴", "安抚", "放心", "别害怕", "we are here", "for you",
      "calm down", "breathe", "take it easy", "i\x27m here", "you\x27re safe",
      "不要着急", "慢慢来", "不要怕", "抱抱你", "给你力量"]
  | .magnetic =>
    ["认真", "严肃", "重要", "必须", "责任", "庄重", "郑重", "严谨", "focus",
      "关键", "critical", "serious", "必须要", "不能忽视", "格外注意", "十分重要",
      "谨慎", "务必", "记住", "请务必"]
  | .neutral => []

/-- `punctuationBoost` from analyzer.go. -/
def punctuationBoost : Label → Nat
  | .happy => 2
  | .excited => 3
  | _ => 0

/-- ASCII whitespace recognised by the trim step. -/
def isSpaceChar (c : Char) : Bool :=
  c == ' ' || c == '\t' || c == '\n' || c == '\r'

/-- `strings.TrimSpace` over rune lists. -/
def trimChars (l : List Char) : List Char :=
  ((l.dropWhile isSpaceChar).reverse.dropWhile isSpaceChar).reverse

/-- `strings.ToLower` over rune lists (ASCII letters; CJK is unaffected). -/
def lowerChars (l : List Char) : List Char := l.map Char.toLower

/-- `strings.TrimSpace(strings.ToLower(text))` from `scoreText`. -/
def normalize (text : String) : List Char := trimChars (lowerChars text.toList)

/-- Keyword score of one bucket: +3 per nonempty keyword contained in the
normalized text (`scoreText`, analyzer.go 109-118). -/
def bucketScore (normalized : List Char) (words : List String) : Nat :=
  3 * (words.filter
    (fun w => w ≠ "" && containsStr normalized (lowerChars w.toList))).length

/-- `strings.Count(text, "!")`. -/
def exclamCount (text : String) : Nat := text.toList.count '!'

/-- Total score of a label: the keyword-bucket score plus the exclamation
boosts (`scoreText`, analyzer.go 120-126). -/
def labelScore (normalized : List Char) (exclam : Nat) (label : Label) : Nat :=
  bucketScore normalized (keywords label)
    + (if label = .excited then exclam * punctuationBoost .excited else 0)
    + (if label = .happy ∧ exclam = 1 then punctuationBoost .happy else 0)

/-- The non-neutral labels, in the order of the `keywordBuckets` literal.
Go iterates the score map in an unspecified order; the verified properties
only concern runs with a unique maximiser (or all-zero scores), where the
order is irrelevant, so a fixed order is used. -/
def labelOrder : List Label :=
  [.happy, .sad, .angry, .excited, .tender, .comfort, .magnetic]

/-- The best-score selection loop of `scoreText` (analyzer.go 128-135):
keep the first label strictly exceeding the best score so far, starting
from `(Neutral, 0)`. -/
def pickBest (score : Label → Nat) : Label × Nat :=
  labelOrder.foldl (fun best l => if score l > best.2 then (l, score l) else best)
    (Label.neutral, 0)

/-- `scoreText` from analyzer.go. -/
def scoreText (text : String) : Decision :=
  let normalized := normalize text
  if normalized = [] then ⟨.neutral, 0, 0⟩
  else
    let exclam := exclamCount text
    let best := pickBest (labelScore normalized exclam)
    if best.2 = 0 then ⟨.neutral, 0, 0⟩
    else ⟨best.1, 0, best.2⟩

/-- `coerceEmotionFromUser` from analyzer.go. -/
def coerceEmotionFromUser (user : Decision) : Decision :=
  match user.emotion with
  | .sad => ⟨.comfort, 0, user.score⟩
  | .angry => ⟨.magnetic, 0, user.score⟩
  | .excited => ⟨.excited, 0, user.score⟩
  | .happy => ⟨.happy, 0, user.score⟩
  | .tender => ⟨.tender, 0, user.score⟩
  | .comfort => ⟨.tender, 0, user.score⟩
  | _ => user

/-- `math.Min` on the exactly-represented values handled here. -/
def ratMin (a b : ℚ) : ℚ := if a ≤ b then a else b

/-- The sequential scale adjustment of `Analyze` (analyzer.go 81-97):
base `2 + score/4`, excited +1, magnetic capped at 4, comfort/tender capped
at 3.5, then clamped into `[1,5]`. -/
def goScale (emotion : Label) (score : Nat) : ℚ :=
  let scale0 : ℚ := 2 + (score : ℚ) / 4
  let scale1 := if emotion = .excited then scale0 + 1 else scale0
  let scale2 := if emotion = .magnetic then ratMin 4 scale1 else scale1
  let scale3 :=
    if emotion = .comfort ∨ emotion = .tender then ratMin (7 / 2) scale2 else scale2
  let scale4 := if scale3 < 1 then 1 else scale3
  if scale4 > 5 then 5 else scale4

/-- `Analyze` from analyzer.go. -/
def Analyze (userUtterance aiUtterance : String) : Decision :=
  let userScore := scoreText userUtterance
  let aiScore := scoreText aiUtterance
  let finalScore :=
    if aiScore.score = 0 ∧ 0 < userScore.score then coerceEmotionFromUser userScore
    else aiScore
  if finalScore.score = 0 then ⟨.neutral, 3, 0⟩
  else
    ⟨finalScore.emotion, goScale finalScore.emotion finalScore.score,
      finalScore.score⟩

/-- Spec-side intensity formula (§4.6 of the spec): `2 + score/4`, excited
adds 1, magnetic capped at 4, comfort/tender capped at 3.5, clamped to
`[1,5]`. -/
def specIntensity (label : Label) (score : Nat) : ℚ :=
  let base : ℚ := 2 + (score : ℚ) / 4
  let adj := if label = .excited then base + 1 else base
  let capped :=
    if label = .magnetic then min 4 adj
    else if label = .comfort ∨ label = .tender then min (7 / 2) adj
    else adj
  max 1 (min 5 capped)

/-- A text with no emotional signal: no nonempty keyword of any bucket
occurs in the normalized text, and no ASCII exclamation mark occurs. -/
def NoSignal (text : String) : Prop :=
  (∀ l ∈ labelOrder, ∀ w ∈ keywords l,
    w ≠ "" → containsStr (normalize text) (lowerChars w.toList) = false) ∧
    exclamCount text = 0

instance (text : String) : Decidable (NoSignal text) := by
  unfold NoSignal
  infer_instance

end Emotion

namespace Speech

theorem pack_unpack_hi :
    ∀ a < 16, ∀ b < 16, ((((a <<< 4) % 256) ||| (b % 256)) >>> 4) &&& 15 = a := by
  decide

theorem pack_unpack_lo :
    ∀ a < 16, ∀ b < 16, (((a <<< 4) % 256) ||| (b % 256)) &&& 15 = b := by
  decide

theorem land3_eq_mod : ∀ f < 16, f &&& 3 = f % 4 := by decide

theorem uint32BE_length (n : Nat) : (uint32BE n).length = 4 := rfl

theorem be32_uint32BE (n : Nat) (h : n < 2 ^ 32) : be32 (uint32BE n) = n := by
  simp only [uint32BE, be32]
  omega

theorem u32ofInt_lt (i : Int) : u32ofInt i < 2 ^ 32 := by
  simp only [u32ofInt]
  omega

theorem toInt32_u32ofInt (i : Int) (h1 : -(2 ^ 31) ≤ i) (h2 : i < 2 ^ 31) :
    toInt32 (u32ofInt i) = i := by
  simp only [toInt32, u32ofInt]
  split <;> omega

theorem decodeHeader_encode (h : Header) (hv : ValidHeader h) :
    DecodeHeader h.encode = .ok h := by
  obtain ⟨a, b, c, d, e, f, g⟩ := h
  obtain ⟨h1, h2, h3, h4, h5, h6, h7⟩ := hv
  simp only at h1 h2 h3 h4 h5 h6 h7
  subst h1 h2
  have hpv : (1 : Nat) < 16 := by norm_num
  have hhs : (1 : Nat) < 16 := by norm_num
  simp only [Header.encode, DecodeHeader,
    pack_unpack_hi 1 hpv 1 hhs, pack_unpack_lo 1 hpv 1 hhs,
    pack_unpack_hi c h3 d h4, pack_unpack_lo c h3 d h4,
    pack_unpack_hi e h5 f h6, pack_unpack_lo e h5 f h6,
    Nat.mod_eq_of_lt h7, ProtocolVersion]
  simp

@[simp] theorem DecM.run_bind (x : DecM α) (f : α → DecM β) (bs : List Nat) :
    (x >>= f) bs =
      match x bs with
      | .error e => .error e
      | .ok (a, rest) => f a rest := rfl

@[simp] theorem DecM.run_pure (a : α) (bs : List Nat) :
    (pure a : DecM α) bs = .ok (a, bs) := rfl

theorem readBytes_exact (n : Nat) (xs rest : List Nat) (h : xs.length = n) :
    readBytes n (xs ++ rest) = .ok (xs, rest) := by
  subst h
  simp [readBytes]

theorem liftE_run (r : Except String α) (bs : List Nat) :
    liftE r bs = match r with | .ok a => .ok (a, bs) | .error e => .error e := rfl

theorem decodeSeq_enc (flags : Nat) (s : Int)
    (h : if hasSequence flags then -(2 ^ 31) ≤ s ∧ s < 2 ^ 31 else s = 0)
    (rest : List Nat) :
    decodeSeq flags (encodeSeq flags s ++ rest) = .ok (s, rest) := by
  by_cases hf : hasSequence flags
  · rw [if_pos hf] at h
    simp only [decodeSeq, encodeSeq, if_pos hf, readInt32, readU32, DecM.run_bind,
      readBytes_exact 4 (uint32BE (u32ofInt s)) rest (uint32BE_length _)]
    simp [DecM.run_pure, be32_uint32BE _ (u32ofInt_lt s), toInt32_u32ofInt s h.1 h.2]
  · rw [if_neg hf] at h
    simp [decodeSeq, encodeSeq, hf, DecM.run_pure, h]

theorem readSized_exact (xs rest : List Nat) :
    readSized xs.length (xs ++ rest) = .ok (xs, rest) := by
  rcases Nat.eq_zero_or_pos xs.length with h0 | h0
  · have : xs = [] := List.length_eq_zero.mp h0
    subst this
    simp [readSized]
  · rw [readSized, if_pos h0]
    exact readBytes_exact xs.length xs rest rfl

theorem readSized_zero (bs : List Nat) : readSized 0 bs = .ok ([], bs) := by
  simp [readSized]

theorem decodeSizedBytes_enc (xs rest : List Nat) (h : xs.length < 2 ^ 32) :
    decodeSizedBytes (uint32BE xs.length ++ (xs ++ rest)) = .ok (xs, rest) := by
  simp only [decodeSizedBytes, readU32, DecM.run_bind,
    readBytes_exact 4 (uint32BE xs.length) (xs ++ rest) (uint32BE_length _),
    DecM.run_pure, be32_uint32BE _ h]
  exact readSized_exact xs rest

theorem decodeEvent_enc (flags : Nat) (et : Int) (sid cid rest : List Nat)
    (h : if withEventFlag flags then
          (-(2 ^ 31) ≤ et ∧ et < 2 ^ 31) ∧
            (if eventSkipsSessionID et then sid = [] else sid.length < 2 ^ 32) ∧
            (if eventHasConnectID et then cid.length < 2 ^ 32 else cid = [])
        else et = 0 ∧ sid = [] ∧ cid = []) :
    decodeEvent flags (encodeEvent flags et sid cid ++ rest) = .ok ((et, sid, cid), rest) := by
  by_cases hf : withEventFlag flags
  · rw [if_pos hf] at h
    obtain ⟨⟨he1, he2⟩, hsid, hcid⟩ := h
    simp only [decodeEvent, encodeEvent, if_pos hf, List.append_assoc]
    simp only [DecM.run_bind, readInt32, readU32,
      readBytes_exact 4 (uint32BE (u32ofInt et)) _ (uint32BE_length _), DecM.run_pure,
      be32_uint32BE _ (u32ofInt_lt et), toInt32_u32ofInt et he1 he2]
    by_cases hskip : eventSkipsSessionID et
    · rw [if_pos hskip] at hsid
      subst hsid
      simp only [decodeSessionPart, if_pos hskip, List.nil_append, DecM.run_pure,
        DecM.run_bind]
      by_cases hconn : eventHasConnectID et
      · rw [if_pos hconn] at hcid
        simp only [decodeConnectPart, if_pos hconn, List.append_assoc, DecM.run_bind]
        rw [decodeSizedBytes_enc cid rest hcid]
      · rw [if_neg hconn] at hcid
        subst hcid
        simp [decodeConnectPart, hconn]
    · rw [if_neg hskip] at hsid
      simp only [decodeSessionPart, if_neg hskip, List.append_assoc, DecM.run_bind]
      rw [decodeSizedBytes_enc sid _ hsid]
      by_cases hconn : eventHasConnectID et
      · rw [if_pos hconn] at hcid
        simp only [decodeConnectPart, if_pos hconn, List.append_assoc, DecM.run_bind]
        rw [decodeSizedBytes_enc cid rest hcid]
      · rw [if_neg hconn] at hcid
        subst hcid
        simp [decodeConnectPart, hconn]
  · rw [if_neg hf] at h
    obtain ⟨h1, h2, h3⟩ := h
    subst h1 h2 h3
    simp [decodeEvent, encodeEvent, hf]

theorem decodePayloadMeta_enc (mt : Nat) (hmt : mt ≠ ErrorMessage) (size : Nat)
    (hsz : size < 2 ^ 32) (rest : List Nat) :
    decodePayloadMeta mt (uint32BE size ++ rest) = .ok ((0, size), rest) := by
  have : (mt == ErrorMessage) = false := beq_eq_false_iff_ne.mpr hmt
  simp only [decodePayloadMeta, this, Bool.false_eq_true, if_false, readU32,
    DecM.run_bind, readBytes_exact 4 (uint32BE size) rest (uint32BE_length _),
    DecM.run_pure, be32_uint32BE _ hsz]

theorem decode_encode_ext (m : Message) (hv : ValidMessage m)
    (hn : m.header.messageType ≠ ErrorMessage) (ext : List Nat) :
    DecodeMessage (EncodeMessage m ++ ext) = .ok (m, ext) := by
  obtain ⟨h, seq, et, sid, cid, ec, ps, pl⟩ := m
  obtain ⟨hvh, hseq, hev, hec0, hec, hps, hpl⟩ := hv
  simp only at hseq hev hec0 hn hps ⊢
  have hec0' : ec = 0 := by
    rcases hec0 with h' | h'
    · exact absurd h' hn
    · exact h'
  subst hec0' hps
  simp only [EncodeMessage, List.append_assoc]
  simp only [DecodeMessage, DecM.run_bind]
  rw [readBytes_exact 4 h.encode _ (by simp [Header.encode])]
  simp only [liftE_run, decodeHeader_encode h hvh]
  rw [show h.headerSize * 4 - 4 = 0 from by rw [hvh.2.1]]
  simp only [DecM.run_bind, readSized_zero]
  rw [decodeSeq_enc h.messageFlags seq hseq]
  simp only [DecM.run_bind]
  rw [decodeEvent_enc h.messageFlags et sid cid _ hev]
  simp only [DecM.run_bind]
  rw [decodePayloadMeta_enc h.messageType hn pl.length hpl (pl ++ ext)]
  simp only [DecM.run_bind]
  rw [readSized_exact pl ext]
  simp

theorem extOK_pure (a : α) : ExtOK (pure a : DecM α) := by
  intro bs b rest h
  simp only [DecM.run_pure, Except.ok.injEq, Prod.mk.injEq] at h
  obtain ⟨h1, h2⟩ := h
  subst h1 h2
  exact ⟨[], by simp, fun ext => by simp⟩

theorem extOK_bind {x : DecM α} {f : α → DecM β} (hx : ExtOK x)
    (hf : ∀ a, ExtOK (f a)) : ExtOK (x >>= f) := by
  intro bs b rest h
  simp only [DecM.run_bind] at h
  cases hx0 : x bs with
  | error e => rw [hx0] at h; cases h
  | ok p =>
    obtain ⟨a, mid⟩ := p
    rw [hx0] at h
    obtain ⟨c1, hbs, hx1⟩ := hx bs a mid hx0
    obtain ⟨c2, hmid, hf1⟩ := hf a mid b rest h
    refine ⟨c1 ++ c2, ?_, ?_⟩
    · rw [hbs, hmid, List.append_assoc]
    · intro ext
      simp only [DecM.run_bind, List.append_assoc, hx1 (c2 ++ ext)]
      exact hf1 ext

theorem extOK_readBytes (n : Nat) : ExtOK (readBytes n) := by
  intro bs a rest h
  unfold readBytes at h
  split at h
  · simp only [Except.ok.injEq, Prod.mk.injEq] at h
    obtain ⟨h1, h2⟩ := h
    subst h1 h2
    refine ⟨bs.take n, (List.take_append_drop n bs).symm, fun ext => ?_⟩
    apply readBytes_exact
    simp [List.length_take]
    omega
  · cases h

theorem extOK_liftE (r : Except String α) : ExtOK (liftE r) := by
  intro bs a rest h
  cases r with
  | error e => cases h
  | ok v =>
    simp only [liftE_run, Except.ok.injEq, Prod.mk.injEq] at h
    obtain ⟨h1, h2⟩ := h
    subst h1 h2
    exact ⟨[], by simp, fun ext => by simp [liftE_run]⟩

theorem extOK_ite (c : Prop) [Decidable c] {x y : DecM α} (hx : ExtOK x)
    (hy : ExtOK y) : ExtOK (if c then x else y) := by
  split
  · exact hx
  · exact hy

theorem extOK_readU32 : ExtOK readU32 :=
  extOK_bind (extOK_readBytes 4) (fun _ => extOK_pure _)

theorem extOK_readInt32 : ExtOK readInt32 :=
  extOK_bind (extOK_readBytes 4) (fun _ => extOK_pure _)

theorem extOK_decodeSeq (flags : Nat) : ExtOK (decodeSeq flags) := by
  unfold decodeSeq
  exact extOK_ite _ extOK_readInt32 (extOK_pure _)

theorem extOK_readSized (n : Nat) : ExtOK (readSized n) :=
  extOK_ite _ (extOK_readBytes n) (extOK_pure _)

theorem extOK_decodeSizedBytes : ExtOK decodeSizedBytes := by
  unfold decodeSizedBytes
  exact extOK_bind extOK_readU32 (fun size => extOK_readSized size)

theorem extOK_decodeSessionPart (et : Int) : ExtOK (decodeSessionPart et) :=
  extOK_ite _ (extOK_pure _) extOK_decodeSizedBytes

theorem extOK_decodeConnectPart (et : Int) : ExtOK (decodeConnectPart et) :=
  extOK_ite _ extOK_decodeSizedBytes (extOK_pure _)

theorem extOK_decodeEvent (flags : Nat) : ExtOK (decodeEvent flags) := by
  unfold decodeEvent
  apply extOK_ite
  · apply extOK_bind extOK_readInt32
    intro et
    apply extOK_bind (extOK_decodeSessionPart et)
    intro sid
    apply extOK_bind (extOK_decodeConnectPart et)
    intro cid
    exact extOK_pure _
  · exact extOK_pure _

theorem extOK_decodePayloadMeta (msgType : Nat) : ExtOK (decodePayloadMeta msgType) := by
  unfold decodePayloadMeta
  apply extOK_ite
  · exact extOK_bind extOK_readU32 fun code =>
      extOK_bind extOK_readU32 fun size => extOK_pure _
  · exact extOK_bind extOK_readU32 fun size => extOK_pure _

theorem extOK_DecodeMessage : ExtOK DecodeMessage := by
  unfold DecodeMessage
  apply extOK_bind (extOK_readBytes 4)
  intro hb
  apply extOK_bind (extOK_liftE _)
  intro h
  apply extOK_bind (extOK_readSized _)
  intro pad
  apply extOK_bind (extOK_decodeSeq _)
  intro seq
  apply extOK_bind (extOK_decodeEvent _)
  intro ev
  apply extOK_bind (extOK_decodePayloadMeta _)
  intro meta
  apply extOK_bind (extOK_readSized _)
  intro payload
  exact extOK_pure _

theorem readBytes_short (n : Nat) (bs : List Nat) (h : bs.length < n) :
    readBytes n bs = .error "unexpected end of input" := by
  unfold readBytes
  rw [if_neg]
  omega

theorem land3_mod4 (n : Nat) : n &&& 3 = n % 4 := by
  have := Nat.and_pow_two_sub_one_eq_mod n 2
  simpa using this

end Speech

/-- C1 (counterexample): the claim fails on Error frames.  The frame below is
valid (fields consistent with its flags, declared payload size equal to the
payload size), yet decoding its encoding does not return it: `EncodeMessage`
never writes the error-code word that `DecodeMessage` reads for
`ErrorMessage` frames, so decoding misreads the payload-size word as the
error code and then fails on a missing payload size. -/
theorem c1_error_frame_roundtrip_fails :
    Speech.ValidMessage ⟨⟨1, 1, 15, 0, 0, 0, 0⟩, 0, 0, [], [], 0, 0, []⟩ ∧
      Speech.isOkB (Speech.DecodeMessage
        (Speech.EncodeMessage ⟨⟨1, 1, 15, 0, 0, 0, 0⟩, 0, 0, [], [], 0, 0, []⟩)) =
        false := by
  constructor
  · decide
  · decide

/-- C1 (amended): for every valid frame whose message type is not Error —
all header fields in range, fields consistent with the flag bits and event
type, payload length equal to the declared size — decoding the encoding
reproduces every field exactly and consumes the entire encoding.  Error
frames are excluded: the encoder omits the error-code word the decoder
expects, so their roundtrip fails (see the counterexample). -/
theorem c1_decode_encode_roundtrip (m : Speech.Message)
    (hv : Speech.ValidMessage m) (hn : m.header.messageType ≠ Speech.ErrorMessage) :
    Speech.DecodeMessage (Speech.EncodeMessage m) = .ok (m, []) := by
  have h := Speech.decode_encode_ext m hv hn []
  rwa [List.append_nil] at h

/-- C1 witness: a concrete full-featured frame (server response with
positive sequence, event metadata and session id) roundtrips exactly. -/
theorem c1_decode_encode_roundtrip_witness :
    Speech.ValidMessage ⟨⟨1, 1, 9, 5, 1, 1, 0⟩, 7, 150, [97, 98], [], 0, 2, [5, 6]⟩ ∧
      Speech.DecodeMessage (Speech.EncodeMessage
        ⟨⟨1, 1, 9, 5, 1, 1, 0⟩, 7, 150, [97, 98], [], 0, 2, [5, 6]⟩) =
        .ok (⟨⟨1, 1, 9, 5, 1, 1, 0⟩, 7, 150, [97, 98], [], 0, 2, [5, 6]⟩, []) :=
  ⟨by decide,
    c1_decode_encode_roundtrip ⟨⟨1, 1, 9, 5, 1, 1, 0⟩, 7, 150, [97, 98], [], 0, 2, [5, 6]⟩
      (by decide) (by decide)⟩

/-- C8: `IsLastPacket` is true exactly when the low two bits of the header
flags select terminal-no-sequence (2) or terminal-negative-sequence (3);
this holds for every flags value, so in particular for all four low-two-bit
combinations and independently of the event-metadata bit. -/
theorem c8_isLastPacket_iff (m : Speech.Message) :
    m.IsLastPacket = true ↔
      (m.header.messageFlags % 4 = Speech.LastPacketNoSequence ∨
        m.header.messageFlags % 4 = Speech.NegativeSequenceNumber) := by
  simp only [Speech.Message.IsLastPacket, Speech.land3_mod4, Bool.or_eq_true,
    beq_iff_eq]

namespace Speech

/-- Unpacking the high nibble of a packed byte `16 * a + b`. -/
theorem unpack_hi : ∀ a < 16, ∀ b < 16, ((16 * a + b) >>> 4) &&& 15 = a := by decide

/-- Unpacking the low nibble of a packed byte `16 * a + b`. -/
theorem unpack_lo : ∀ a < 16, ∀ b < 16, (16 * a + b) &&& 15 = b := by decide

/-- `DecodeHeader` succeeds on any four header bytes whose version nibble is
the supported version, returning the nibble fields verbatim. -/
theorem decodeHeader_ok (b0 b1 b2 b3 : Nat) (tail : List Nat)
    (hv : (b0 >>> 4) &&& 15 = ProtocolVersion) :
    DecodeHeader (b0 :: b1 :: b2 :: b3 :: tail) =
      .ok ⟨(b0 >>> 4) &&& 15, b0 &&& 15, (b1 >>> 4) &&& 15, b1 &&& 15,
        (b2 >>> 4) &&& 15, b2 &&& 15, b3⟩ := by
  simp only [DecodeHeader]
  rw [if_neg (fun h => h hv)]

end Speech

/-- C9: `DecodeMessage` returns an error — and hence no message — on every
malformed input: an input with fewer than 4 header bytes; a header whose
version nibble is not the supported version; any strict truncation of a
valid non-Error encoding (cutting short its sequence word, event-type word,
session-id size or bytes, connect-id size or bytes, payload-size word or
payload); more generally, any input the decoder accepts — any header size,
any message type including Error, any flag combination — cut anywhere
strictly inside the bytes the decoder consumes, so that whatever declared
segment the cut lands in is truncated; declared extended header words
(header size at least 2) with fewer remaining bytes than declared; a
truncated sequence word and a truncated event-type word under any message
type, Error included; an Error-frame header whose error-code/payload-size
words are incomplete; and an Error frame whose declared payload size
exceeds the remaining bytes. -/
theorem c9_decode_fails_on_malformed_input :
    (∀ bs : List Nat, bs.length < 4 → Speech.isOkB (Speech.DecodeMessage bs) = false) ∧
    (∀ b0 b1 b2 b3 : Nat, ∀ tail : List Nat,
      (b0 >>> 4) &&& 15 ≠ Speech.ProtocolVersion →
      Speech.isOkB (Speech.DecodeMessage (b0 :: b1 :: b2 :: b3 :: tail)) = false) ∧
    (∀ (m : Speech.Message) (p s : List Nat), Speech.ValidMessage m →
      m.header.messageType ≠ Speech.ErrorMessage → Speech.EncodeMessage m = p ++ s →
      s ≠ [] → Speech.isOkB (Speech.DecodeMessage p) = false) ∧
    (∀ (bs : List Nat) (m : Speech.Message) (rest p s : List Nat),
      Speech.DecodeMessage bs = .ok (m, rest) → bs = p ++ s →
      rest.length < s.length → Speech.isOkB (Speech.DecodeMessage p) = false) ∧
    (∀ hs b1 b2 b3 : Nat, ∀ rest : List Nat, 2 ≤ hs → hs < 16 →
      rest.length < hs * 4 - 4 →
      Speech.isOkB (Speech.DecodeMessage ((16 + hs) :: b1 :: b2 :: b3 :: rest)) = false) ∧
    (∀ mt fl b2 b3 : Nat, ∀ rest : List Nat, mt < 16 → fl < 16 →
      Speech.hasSequence fl = true → rest.length < 4 →
      Speech.isOkB (Speech.DecodeMessage (17 :: (16 * mt + fl) :: b2 :: b3 :: rest)) =
        false) ∧
    (∀ mt fl b2 b3 : Nat, ∀ rest : List Nat, mt < 16 → fl < 16 →
      Speech.hasSequence fl = false → Speech.withEventFlag fl = true →
      rest.length < 4 →
      Speech.isOkB (Speech.DecodeMessage (17 :: (16 * mt + fl) :: b2 :: b3 :: rest)) =
        false) ∧
    (∀ rest : List Nat, rest.length < 8 →
      Speech.isOkB (Speech.DecodeMessage ([17, 240, 0, 0] ++ rest)) = false) ∧
    (∀ (ec sz : Nat) (rest : List Nat), ec < 2 ^ 32 → sz < 2 ^ 32 →
      rest.length < sz →
      Speech.isOkB (Speech.DecodeMessage
        ([17, 240, 0, 0] ++ Speech.uint32BE ec ++ Speech.uint32BE sz ++ rest)) =
        false) := by
  refine ⟨?_, ?_, ?_, ?_, ?_, ?_, ?_, ?_, ?_⟩
  · intro bs hlen
    simp only [Speech.DecodeMessage, Speech.DecM.run_bind,
      Speech.readBytes_short 4 bs hlen]
    rfl
  · intro b0 b1 b2 b3 tail hver
    have hdr : Speech.DecodeHeader [b0, b1, b2, b3] =
        .error "unsupported protocol version" := by
      simp only [Speech.DecodeHeader]
      rw [if_pos hver]
    have hread : Speech.readBytes 4 (b0 :: b1 :: b2 :: b3 :: tail) =
        .ok ([b0, b1, b2, b3], tail) := Speech.readBytes_exact 4 [b0, b1, b2, b3] tail rfl
    simp [Speech.DecodeMessage, Speech.DecM.run_bind, hread, hdr, Speech.liftE_run,
      Speech.isOkB]
  · intro m p s hv hn henc hs
    cases hdp : Speech.DecodeMessage p with
    | error e => simp [Speech.isOkB]
    | ok pr =>
      exfalso
      obtain ⟨a, rest⟩ := pr
      obtain ⟨c, hpc, hext⟩ := Speech.extOK_DecodeMessage p a rest hdp
      have h2 : Speech.DecodeMessage (c ++ (rest ++ s)) = .ok (a, rest ++ s) :=
        hext (rest ++ s)
      have h3 : c ++ (rest ++ s) = Speech.EncodeMessage m := by
        rw [henc, hpc, List.append_assoc]
      have h4 : Speech.DecodeMessage (Speech.EncodeMessage m) = .ok (m, []) := by
        have h5 := Speech.decode_encode_ext m hv hn []
        rwa [List.append_nil] at h5
      rw [h3, h4] at h2
      have h6 : rest ++ s = [] := by
        injection h2 with h7
        exact (congrArg Prod.snd h7).symm
      rcases List.append_eq_nil.mp h6 with ⟨-, h8⟩
      exact hs h8
  · intro bs m rest p s hok hsplit hlen
    cases hdp : Speech.DecodeMessage p with
    | error e => simp [Speech.isOkB]
    | ok pr =>
      exfalso
      obtain ⟨m2, rest2⟩ := pr
      obtain ⟨c2, hpc2, hext2⟩ := Speech.extOK_DecodeMessage p m2 rest2 hdp
      have h1 : Speech.DecodeMessage (c2 ++ (rest2 ++ s)) = .ok (m2, rest2 ++ s) :=
        hext2 (rest2 ++ s)
      have h2 : bs = c2 ++ (rest2 ++ s) := by
        rw [hsplit, hpc2, List.append_assoc]
      rw [← h2, hok] at h1
      have h3 : rest = rest2 ++ s := by
        injection h1 with h4
        exact congrArg Prod.snd h4
      have h5 := congrArg List.length h3
      simp only [List.length_append] at h5
      omega
  · intro hs b1 b2 b3 rest hge hlt hlen
    have hv : ((16 + hs) >>> 4) &&& 15 = Speech.ProtocolVersion := by
      rw [show (16 + hs : Nat) = 16 * 1 + hs from by ring]
      exact Speech.unpack_hi 1 (by norm_num) hs hlt
    have hhs : (16 + hs) &&& 15 = hs := by
      rw [show (16 + hs : Nat) = 16 * 1 + hs from by ring]
      exact Speech.unpack_lo 1 (by norm_num) hs hlt
    have hread : Speech.readBytes 4 ((16 + hs) :: b1 :: b2 :: b3 :: rest) =
        .ok ([16 + hs, b1, b2, b3], rest) :=
      Speech.readBytes_exact 4 [16 + hs, b1, b2, b3] rest rfl
    have hdr := Speech.decodeHeader_ok (16 + hs) b1 b2 b3 [] hv
    have hpad : Speech.readSized (hs * 4 - 4) rest =
        .error "unexpected end of input" := by
      rw [Speech.readSized, if_pos (by omega : 0 < hs * 4 - 4)]
      exact Speech.readBytes_short (hs * 4 - 4) rest hlen
    simp [Speech.DecodeMessage, Speech.DecM.run_bind, hread, hdr, Speech.liftE_run,
      hhs, hpad, Speech.isOkB]
  · intro mt fl b2 b3 rest hmt hfl hseq hlen
    have hread : Speech.readBytes 4 (17 :: (16 * mt + fl) :: b2 :: b3 :: rest) =
        .ok ([17, 16 * mt + fl, b2, b3], rest) :=
      Speech.readBytes_exact 4 [17, 16 * mt + fl, b2, b3] rest rfl
    have hdr := Speech.decodeHeader_ok 17 (16 * mt + fl) b2 b3 [] (by decide)
    have hpad0 : Speech.readSized ((17 &&& 15) * 4 - 4) rest = .ok ([], rest) :=
      Speech.readSized_zero rest
    have hseqe : Speech.decodeSeq fl rest = .error "unexpected end of input" := by
      rw [Speech.decodeSeq, if_pos hseq]
      simp [Speech.readInt32, Speech.DecM.run_bind, Speech.readBytes_short 4 rest hlen]
    simp [Speech.DecodeMessage, Speech.DecM.run_bind, hread, hdr, Speech.liftE_run,
      Speech.unpack_lo mt hmt fl hfl, hpad0, hseqe, Speech.isOkB]
  · intro mt fl b2 b3 rest hmt hfl hseq hev hlen
    have hread : Speech.readBytes 4 (17 :: (16 * mt + fl) :: b2 :: b3 :: rest) =
        .ok ([17, 16 * mt + fl, b2, b3], rest) :=
      Speech.readBytes_exact 4 [17, 16 * mt + fl, b2, b3] rest rfl
    have hdr := Speech.decodeHeader_ok 17 (16 * mt + fl) b2 b3 [] (by decide)
    have hseq0 : Speech.decodeSeq fl rest = .ok (0, rest) := by
      rw [Speech.decodeSeq, if_neg]
      · rfl
      · simp [hseq]
    have hpad0 : Speech.readSized ((17 &&& 15) * 4 - 4) rest = .ok ([], rest) :=
      Speech.readSized_zero rest
    have heve : Speech.decodeEvent fl rest = .error "unexpected end of input" := by
      rw [Speech.decodeEvent, if_pos hev]
      simp [Speech.readInt32, Speech.DecM.run_bind, Speech.readBytes_short 4 rest hlen]
    simp [Speech.DecodeMessage, Speech.DecM.run_bind, hread, hdr, Speech.liftE_run,
      Speech.unpack_lo mt hmt fl hfl, hpad0, hseq0, heve, Speech.isOkB]
  · intro rest hlen
    have hdr : Speech.DecodeHeader [17, 240, 0, 0] = .ok ⟨1, 1, 15, 0, 0, 0, 0⟩ := rfl
    have hread : Speech.readBytes 4 (17 :: 240 :: 0 :: 0 :: rest) =
        .ok ([17, 240, 0, 0], rest) := Speech.readBytes_exact 4 [17, 240, 0, 0] rest rfl
    rcases Nat.lt_or_ge rest.length 4 with h4 | h4
    · simp [Speech.DecodeMessage, Speech.DecM.run_bind, hread, hdr, Speech.liftE_run,
        Speech.readSized_zero, Speech.decodeSeq, Speech.decodeEvent,
        Speech.hasSequence, Speech.withEventFlag, Speech.decodePayloadMeta,
        Speech.ErrorMessage, Speech.readU32, Speech.readBytes_short 4 rest h4,
        Speech.isOkB, Speech.PositiveSequenceNumber, Speech.NegativeSequenceNumber,
        Speech.WithEvent]
    · have hfirst : Speech.readBytes 4 rest = .ok (rest.take 4, rest.drop 4) := by
        unfold Speech.readBytes
        rw [if_pos h4]
      have hsecond : Speech.readBytes 4 (rest.drop 4) =
          .error "unexpected end of input" := by
        apply Speech.readBytes_short
        simp only [List.length_drop]
        omega
      simp [Speech.DecodeMessage, Speech.DecM.run_bind, hread, hdr, Speech.liftE_run,
        Speech.readSized_zero, Speech.decodeSeq, Speech.decodeEvent,
        Speech.hasSequence, Speech.withEventFlag, Speech.decodePayloadMeta,
        Speech.ErrorMessage, Speech.readU32, hfirst, hsecond, Speech.isOkB,
        Speech.PositiveSequenceNumber, Speech.NegativeSequenceNumber,
        Speech.WithEvent]
  · intro ec sz rest hec hsz hlen
    have hdr : Speech.DecodeHeader [17, 240, 0, 0] = .ok ⟨1, 1, 15, 0, 0, 0, 0⟩ := rfl
    have hread : Speech.readBytes 4
        (17 :: 240 :: 0 :: 0 :: (Speech.uint32BE ec ++ (Speech.uint32BE sz ++ rest))) =
        .ok ([17, 240, 0, 0], Speech.uint32BE ec ++ (Speech.uint32BE sz ++ rest)) :=
      Speech.readBytes_exact 4 [17, 240, 0, 0]
        (Speech.uint32BE ec ++ (Speech.uint32BE sz ++ rest)) rfl
    have hr1 : Speech.readBytes 4 (Speech.uint32BE ec ++ (Speech.uint32BE sz ++ rest)) =
        .ok (Speech.uint32BE ec, Speech.uint32BE sz ++ rest) :=
      Speech.readBytes_exact 4 (Speech.uint32BE ec) (Speech.uint32BE sz ++ rest)
        (Speech.uint32BE_length ec)
    have hr2 : Speech.readBytes 4 (Speech.uint32BE sz ++ rest) =
        .ok (Speech.uint32BE sz, rest) :=
      Speech.readBytes_exact 4 (Speech.uint32BE sz) rest (Speech.uint32BE_length sz)
    have hps : Speech.readSized sz rest = .error "unexpected end of input" := by
      rw [Speech.readSized, if_pos (by omega : 0 < sz)]
      exact Speech.readBytes_short sz rest hlen
    simp [Speech.DecodeMessage, Speech.DecM.run_bind, hread, hdr, Speech.liftE_run,
      Speech.readSized_zero, Speech.decodeSeq, Speech.decodeEvent, Speech.hasSequence,
      Speech.withEventFlag, Speech.decodePayloadMeta, Speech.ErrorMessage,
      Speech.readU32, hr1, hr2, Speech.be32_uint32BE ec hec,
      Speech.be32_uint32BE sz hsz, hps, Speech.isOkB,
      Speech.PositiveSequenceNumber, Speech.NegativeSequenceNumber, Speech.WithEvent]

/-- C9 witness: the failure branches at concrete inputs — a 3-byte input; a
wrong-version header; a valid encoding cut one byte short; an accepted
stream cut inside its payload; an extended header declaring 4 extra bytes
with only 3 present; an Error-frame header whose flags demand a sequence
word with only 2 bytes left; an Error-frame header whose flags demand an
event-type word with nothing left; an Error-frame header with no code/size
words; and an Error frame declaring a 5-byte payload with 3 bytes left. -/
theorem c9_decode_fails_witness :
    Speech.isOkB (Speech.DecodeMessage [0, 0, 0]) = false ∧
      Speech.isOkB (Speech.DecodeMessage [33, 16, 16, 0, 0, 0, 0, 0]) = false ∧
      Speech.isOkB (Speech.DecodeMessage [17, 16, 17, 0, 0, 0, 0]) = false ∧
      Speech.isOkB (Speech.DecodeMessage [17, 16, 0, 0, 0, 0, 0, 1]) = false ∧
      Speech.isOkB (Speech.DecodeMessage [18, 240, 0, 0, 0, 0, 0]) = false ∧
      Speech.isOkB (Speech.DecodeMessage [17, 241, 0, 0, 0, 0]) = false ∧
      Speech.isOkB (Speech.DecodeMessage [17, 244, 0, 0]) = false ∧
      Speech.isOkB (Speech.DecodeMessage [17, 240, 0, 0]) = false ∧
      Speech.isOkB (Speech.DecodeMessage
        ([17, 240, 0, 0] ++ Speech.uint32BE 0 ++ Speech.uint32BE 5 ++ [1, 2, 3])) =
        false :=
  ⟨c9_decode_fails_on_malformed_input.1 [0, 0, 0] (by decide),
    c9_decode_fails_on_malformed_input.2.1 33 16 16 0 [0, 0, 0, 0] (by decide),
    c9_decode_fails_on_malformed_input.2.2.1
      ⟨⟨1, 1, 1, 0, 1, 1, 0⟩, 0, 0, [], [], 0, 0, []⟩ [17, 16, 17, 0, 0, 0, 0] [0]
      (by decide) (by decide) (by decide) (by decide),
    c9_decode_fails_on_malformed_input.2.2.2.1 [17, 16, 0, 0, 0, 0, 0, 1, 9]
      ⟨⟨1, 1, 1, 0, 0, 0, 0⟩, 0, 0, [], [], 0, 1, [9]⟩ [] [17, 16, 0, 0, 0, 0, 0, 1] [9]
      (by decide) (by decide) (by decide),
    c9_decode_fails_on_malformed_input.2.2.2.2.1 2 240 0 0 [0, 0, 0]
      (by decide) (by decide) (by decide),
    c9_decode_fails_on_malformed_input.2.2.2.2.2.1 15 1 0 0 [0, 0]
      (by decide) (by decide) (by decide) (by decide),
    c9_decode_fails_on_malformed_input.2.2.2.2.2.2.1 15 4 0 0 []
      (by decide) (by decide) (by decide) (by decide) (by decide),
    c9_decode_fails_on_malformed_input.2.2.2.2.2.2.2.1 [] (by decide),
    c9_decode_fails_on_malformed_input.2.2.2.2.2.2.2.2 0 5 [1, 2, 3]
      (by decide) (by decide) (by decide)⟩

/-- C10: a terminal audio chunk with a nonzero sequence gets the
terminal-negative-sequence flag and carries the arithmetic negation of the
sequence, while a terminal chunk with sequence exactly 0 gets the
terminal-no-sequence flag and its encoded frame carries no sequence word at
all — just header, payload size and payload. -/
theorem c10_terminal_sequence_encoding (audio : List Nat) (seq : Int) (comp : Nat)
    (h1 : -(2 ^ 31) < seq) (h2 : seq < 2 ^ 31) :
    (seq ≠ 0 →
      (Speech.CreateAudioOnlyRequest audio seq true comp).header.messageFlags =
          Speech.NegativeSequenceNumber ∧
        (Speech.CreateAudioOnlyRequest audio seq true comp).sequence = -seq) ∧
    (seq = 0 →
      (Speech.CreateAudioOnlyRequest audio seq true comp).header.messageFlags =
          Speech.LastPacketNoSequence ∧
        Speech.hasSequence
          (Speech.CreateAudioOnlyRequest audio seq true comp).header.messageFlags =
          false ∧
        Speech.EncodeMessage (Speech.CreateAudioOnlyRequest audio seq true comp) =
          (Speech.NewHeader Speech.AudioOnlyRequest Speech.LastPacketNoSequence
              Speech.NoSerialization comp).encode
            ++ Speech.uint32BE audio.length ++ audio) := by
  constructor
  · intro hne
    simp only [Speech.CreateAudioOnlyRequest, if_pos, if_neg, hne, ite_true, ite_false,
      if_true]
    rw [if_pos hne]
    refine ⟨rfl, ?_⟩
    simp only [Speech.wrap32]
    omega
  · intro h0
    subst h0
    refine ⟨?_, ?_, ?_⟩ <;>
      simp [Speech.EncodeMessage, Speech.CreateAudioOnlyRequest, Speech.encodeSeq,
        Speech.encodeEvent, Speech.hasSequence, Speech.withEventFlag,
        Speech.LastPacketNoSequence, Speech.PositiveSequenceNumber,
        Speech.NegativeSequenceNumber, Speech.WithEvent, Speech.NewHeader,
        Speech.AudioOnlyRequest, Speech.NoSerialization, Speech.NoSequenceNumber] <;>
      decide

/-- C10 witness: concrete terminal frames at sequence 5 and at sequence 0. -/
theorem c10_terminal_sequence_encoding_witness :
    ((Speech.CreateAudioOnlyRequest [9] 5 true 1).header.messageFlags =
        Speech.NegativeSequenceNumber ∧
      (Speech.CreateAudioOnlyRequest [9] 5 true 1).sequence = -5) ∧
    ((Speech.CreateAudioOnlyRequest [9] 0 true 1).header.messageFlags =
        Speech.LastPacketNoSequence ∧
      Speech.hasSequence
        (Speech.CreateAudioOnlyRequest [9] 0 true 1).header.messageFlags = false ∧
      Speech.EncodeMessage (Speech.CreateAudioOnlyRequest [9] 0 true 1) =
        (Speech.NewHeader Speech.AudioOnlyRequest Speech.LastPacketNoSequence
            Speech.NoSerialization 1).encode
          ++ Speech.uint32BE ([9] : List Nat).length ++ [9]) :=
  ⟨(c10_terminal_sequence_encoding [9] 5 1 (by decide) (by decide)).1 (by decide),
    (c10_terminal_sequence_encoding [9] 0 1 (by decide) (by decide)).2 rfl⟩

namespace Emotion

theorem scoreText_noSignal (t : String) (h : NoSignal t) :
    scoreText t = ⟨.neutral, 0, 0⟩ := by
  obtain ⟨hk, he⟩ := h
  unfold scoreText
  by_cases hn : normalize t = []
  · simp [hn]
  · rw [if_neg hn]
    have hscore : ∀ l ∈ labelOrder, labelScore (normalize t) (exclamCount t) l = 0 := by
      intro l hl
      unfold labelScore
      rw [he]
      have hb : bucketScore (normalize t) (keywords l) = 0 := by
        unfold bucketScore
        rw [List.filter_eq_nil.mpr]
        · rfl
        · intro w hw
          by_cases hwe : w = ""
          · simp [hwe]
          · have h' := hk l hl w hw hwe
            simp only [String.toList] at h'
            simp [hwe, h']
      rw [hb]
      rcases l <;> simp
    have h1 := hscore .happy (by decide)
    have h2 := hscore .sad (by decide)
    have h3 := hscore .angry (by decide)
    have h4 := hscore .excited (by decide)
    have h5 := hscore .tender (by decide)
    have h6 := hscore .comfort (by decide)
    have h7 := hscore .magnetic (by decide)
    simp [pickBest, labelOrder, h1, h2, h3, h4, h5, h6, h7]

theorem clamp_eq (x : ℚ) :
    (if (if x < 1 then (1 : ℚ) else x) > 5 then (5 : ℚ) else if x < 1 then 1 else x) =
      max 1 (min 5 x) := by
  rcases lt_or_le x 1 with h1 | h1
  · rw [if_pos h1]
    rw [if_neg (by norm_num)]
    rw [max_eq_left]
    have : min 5 x = x := min_eq_right (by linarith)
    rw [this]
    linarith
  · rw [if_neg (not_lt.mpr h1)]
    rcases le_or_lt x 5 with h5 | h5
    · rw [if_neg (not_lt.mpr h5)]
      rw [min_eq_right h5, max_eq_right h1]
    · rw [if_pos h5]
      rw [min_eq_left (by linarith), max_eq_right (by norm_num)]

theorem ratMin_eq (a b : ℚ) : ratMin a b = min a b := by
  rw [ratMin, min_def]

theorem goScale_eq_spec (l : Label) (s : Nat) : goScale l s = specIntensity l s := by
  cases l <;>
    simp only [goScale, specIntensity, ratMin_eq, reduceCtorEq, if_false, if_true,
      ite_self, or_self, or_true, true_or, or_false, false_or, gt_iff_lt] <;>
    exact clamp_eq _

theorem specIntensity_bounds (l : Label) (s : Nat) :
    1 ≤ specIntensity l s ∧ specIntensity l s ≤ 5 := by
  unfold specIntensity
  constructor
  · exact le_max_left 1 _
  · apply max_le
    · norm_num
    · exact min_le_left 5 _

theorem analyze_cases (u a : String) :
    Analyze u a = ⟨.neutral, 3, 0⟩ ∨
      ∃ l s, 0 < s ∧ Analyze u a = ⟨l, goScale l s, s⟩ := by
  unfold Analyze
  set fs := if (scoreText a).score = 0 ∧ 0 < (scoreText u).score then
    coerceEmotionFromUser (scoreText u) else scoreText a with hfs
  by_cases h0 : fs.score = 0
  · left
    rw [if_pos h0]
  · right
    exact ⟨fs.emotion, fs.score, Nat.pos_of_ne_zero h0, by rw [if_neg h0]⟩

end Emotion

/-- C6: the heuristic analyzer on the spec's listed inputs: the sad-user /
comforting-reply pair yields the comfort label with intensity in `[1,5]`;
the excited pair yields the excited label with intensity at least 1.5; and
any pair of texts in which neither text contains a keyword of any bucket
nor an exclamation mark yields neutral at the fixed default intensity 3. -/
theorem c6_analyze_examples :
    ((Emotion.Analyze "我今天很难过" "我会陪着你一起面对").emotion = .comfort ∧
      1 ≤ (Emotion.Analyze "我今天很难过" "我会陪着你一起面对").scale ∧
      (Emotion.Analyze "我今天很难过" "我会陪着你一起面对").scale ≤ 5) ∧
    ((Emotion.Analyze "太棒了!!! 我们成功了" "真是振奋的消息！").emotion = .excited ∧
      (3 : ℚ) / 2 ≤ (Emotion.Analyze "太棒了!!! 我们成功了" "真是振奋的消息！").scale) ∧
    (∀ u a : String, Emotion.NoSignal u → Emotion.NoSignal a →
      Emotion.Analyze u a = ⟨.neutral, 3, 0⟩) := by
  have hu1 : Emotion.scoreText "我今天很难过" = ⟨.sad, 0, 3⟩ := by decide
  have ha1 : Emotion.scoreText "我会陪着你一起面对" = ⟨.comfort, 0, 3⟩ := by decide
  have h1 : Emotion.Analyze "我今天很难过" "我会陪着你一起面对" =
      ⟨.comfort, Emotion.goScale .comfort 3, 3⟩ := by
    unfold Emotion.Analyze
    rw [hu1, ha1]
    norm_num
  have hu2 : Emotion.scoreText "太棒了!!! 我们成功了" = ⟨.excited, 0, 9⟩ := by decide
  have ha2 : Emotion.scoreText "真是振奋的消息！" = ⟨.neutral, 0, 0⟩ := by decide
  have h2 : Emotion.Analyze "太棒了!!! 我们成功了" "真是振奋的消息！" =
      ⟨.excited, Emotion.goScale .excited 9, 9⟩ := by
    unfold Emotion.Analyze
    rw [hu2, ha2]
    norm_num [Emotion.coerceEmotionFromUser]
  refine ⟨?_, ?_, ?_⟩
  · rw [h1]
    refine ⟨rfl, ?_, ?_⟩
    · rw [Emotion.goScale_eq_spec]
      exact (Emotion.specIntensity_bounds .comfort 3).1
    · rw [Emotion.goScale_eq_spec]
      exact (Emotion.specIntensity_bounds .comfort 3).2
  · rw [h2]
    refine ⟨rfl, ?_⟩
    rw [Emotion.goScale_eq_spec]
    have : Emotion.specIntensity .excited 9 = 5 := by
      simp only [Emotion.specIntensity, reduceCtorEq, if_false, if_true, ite_true,
        ite_false, or_self, Nat.cast_ofNat]
      rw [min_eq_left (by norm_num), max_eq_right (by norm_num)]
    rw [this]
    norm_num
  · intro u a hu ha
    unfold Emotion.Analyze
    rw [Emotion.scoreText_noSignal u hu, Emotion.scoreText_noSignal a ha]
    simp

/-- C6 witness: a concrete signal-free pair of texts analyzed to the
neutral default. -/
theorem c6_analyze_examples_witness :
    Emotion.Analyze "今天天气如何" "如常" = ⟨.neutral, 3, 0⟩ :=
  c6_analyze_examples.2.2 "今天天气如何" "如常" (by decide) (by decide)

/-- C7: whenever the final emotion score is positive, the returned intensity
equals the spec formula `2 + score/4` with the label adjustments (excited
+1, magnetic capped at 4, comfort/tender capped at 3.5) clamped to `[1,5]`;
and every returned decision has intensity in `[1,5]`. -/
theorem c7_intensity_formula (u a : String) :
    (0 < (Emotion.Analyze u a).score →
      (Emotion.Analyze u a).scale =
        Emotion.specIntensity (Emotion.Analyze u a).emotion
          (Emotion.Analyze u a).score) ∧
    1 ≤ (Emotion.Analyze u a).scale ∧ (Emotion.Analyze u a).scale ≤ 5 := by
  rcases Emotion.analyze_cases u a with h | ⟨l, s, hs, h⟩
  · rw [h]
    refine ⟨?_, by norm_num, by norm_num⟩
    intro h0
    simp at h0
  · rw [h]
    refine ⟨fun _ => Emotion.goScale_eq_spec l s, ?_, ?_⟩
    · rw [Emotion.goScale_eq_spec]
      exact (Emotion.specIntensity_bounds l s).1
    · rw [Emotion.goScale_eq_spec]
      exact (Emotion.specIntensity_bounds l s).2

/-- C7 witness: the intensity formula evaluated on a concrete positive-score
analysis. -/
theorem c7_intensity_formula_witness :
    (Emotion.Analyze "我今天很难过" "谢谢你的支持").scale =
      Emotion.specIntensity (Emotion.Analyze "我今天很难过" "谢谢你的支持").emotion
        (Emotion.Analyze "我今天很难过" "谢谢你的支持").score :=
  (c7_intensity_formula "我今天很难过" "谢谢你的支持").1 (by decide)

namespace Speech

theorem findConn_setConn_self (l : List (String × Nat)) (s : String) (c : Nat) :
    findConn (setConn l s c) s = some c := by
  induction l with
  | nil => simp [setConn, findConn]
  | cons p rest ih =>
    obtain ⟨k, v⟩ := p
    by_cases hk : k = s
    · simp [setConn, hk, findConn]
    · simp [setConn, hk, findConn, ih]

theorem findConn_setConn_other (l : List (String × Nat)) (s t : String) (c : Nat)
    (h : t ≠ s) : findConn (setConn l s c) t = findConn l t := by
  induction l with
  | nil => simp [setConn, findConn, Ne.symm h]
  | cons p rest ih =>
    obtain ⟨k, v⟩ := p
    by_cases hk : k = s
    · subst hk
      have hkt : ¬k = t := fun hh => h hh.symm
      simp [setConn, findConn, hkt]
    · simp only [setConn, if_neg hk, findConn, ih]

theorem findConn_none (l : List (String × Nat)) (s : String) :
    findConn l s = none ↔ s ∉ l.map Prod.fst := by
  induction l with
  | nil => simp [findConn]
  | cons p rest ih =>
    obtain ⟨k, v⟩ := p
    by_cases hk : k = s
    · simp [findConn, hk]
    · simp [findConn, hk, ih, Ne.symm hk]

theorem keys_setConn (l : List (String × Nat)) (s : String) (c : Nat) :
    (setConn l s c).map Prod.fst =
      if findConn l s = none then l.map Prod.fst ++ [s] else l.map Prod.fst := by
  induction l with
  | nil => simp [setConn, findConn]
  | cons p rest ih =>
    obtain ⟨k, v⟩ := p
    by_cases hk : k = s
    · simp [setConn, hk, findConn]
    · simp only [setConn, if_neg hk, findConn, List.map_cons, ih]
      split <;> simp

theorem keys_setConn_nodup (l : List (String × Nat)) (s : String) (c : Nat)
    (hn : (l.map Prod.fst).Nodup) : ((setConn l s c).map Prod.fst).Nodup := by
  rw [keys_setConn]
  split
  · rename_i hnone
    have hs : s ∉ l.map Prod.fst := (findConn_none l s).mp hnone
    simp [List.nodup_append, hn, hs]
  · exact hn

theorem filter_key_length_le_one (l : List (String × Nat)) (t : String)
    (hn : (l.map Prod.fst).Nodup) :
    (l.filter (fun p => p.1 == t)).length ≤ 1 := by
  induction l with
  | nil => simp
  | cons p rest ih =>
    obtain ⟨k, v⟩ := p
    simp only [List.map_cons, List.nodup_cons] at hn
    by_cases hk : k = t
    · subst hk
      have hrest : rest.filter (fun p => p.1 == k) = [] := by
        rw [List.filter_eq_nil]
        intro q hq
        have : q.1 ∈ rest.map Prod.fst := List.mem_map_of_mem Prod.fst hq
        simp only [beq_iff_eq]
        intro hq1
        exact hn.1 (hq1 ▸ this)
      simp [List.filter_cons, hrest]
    · simp only [List.filter_cons]
      rw [if_neg (by simp [hk])]
      exact ih hn.2

end Speech

/-- C5: adding a connection under a session id that already has a pooled
connection closes the previously pooled connection; afterwards a lookup of
that session id returns only the newly added connection; lookups of other
ids are unchanged; and (keys kept distinct) each session id is bound to at
most one live connection. -/
theorem c5_pool_replaces_and_closes (cm : Speech.ConnectionManager) (sid : String)
    (conn : Nat) (hn : (cm.connections.map Prod.fst).Nodup) :
    Speech.GetConnection (Speech.AddConnection cm sid conn) sid = some conn ∧
    (∀ old, Speech.findConn cm.connections sid = some old →
      old ∈ (Speech.AddConnection cm sid conn).closed) ∧
    ((Speech.AddConnection cm sid conn).connections.map Prod.fst).Nodup ∧
    (∀ t, ((Speech.AddConnection cm sid conn).connections.filter
      (fun p => p.1 == t)).length ≤ 1) ∧
    (∀ t, t ≠ sid → Speech.GetConnection (Speech.AddConnection cm sid conn) t =
      Speech.GetConnection cm t) := by
  have hconn : (Speech.AddConnection cm sid conn).connections =
      Speech.setConn cm.connections sid conn := by
    unfold Speech.AddConnection
    cases Speech.findConn cm.connections sid <;> rfl
  refine ⟨?_, ?_, ?_, ?_, ?_⟩
  · rw [Speech.GetConnection, hconn]
    exact Speech.findConn_setConn_self _ _ _
  · intro old hold
    unfold Speech.AddConnection
    rw [hold]
    simp
  · rw [hconn]
    exact Speech.keys_setConn_nodup _ _ _ hn
  · intro t
    rw [hconn]
    exact Speech.filter_key_length_le_one _ _ (Speech.keys_setConn_nodup _ _ _ hn)
  · intro t ht
    rw [Speech.GetConnection, hconn, Speech.GetConnection]
    exact Speech.findConn_setConn_other _ _ _ _ ht

/-- C5 witness: a pool holding connection 1 for session "s"; adding
connection 2 closes 1 and lookups return 2. -/
theorem c5_pool_replaces_and_closes_witness :
    Speech.GetConnection (Speech.AddConnection ⟨[("s", 1)], []⟩ "s" 2) "s" = some 2 ∧
      1 ∈ (Speech.AddConnection ⟨[("s", 1)], []⟩ "s" 2).closed :=
  ⟨(c5_pool_replaces_and_closes ⟨[("s", 1)], []⟩ "s" 2 (by decide)).1,
    (c5_pool_replaces_and_closes ⟨[("s", 1)], []⟩ "s" 2 (by decide)).2.1 1 (by decide)⟩

namespace Speech

theorem retryLoop_all_fail {E : Type} (dial : Nat → Except E Nat)
    (cA cW : Nat → Bool) (f : Nat → E) (l : List Nat) (last : Option E)
    (hd : ∀ i ∈ l, dial i = .error (f i))
    (hc : ∀ i ∈ l, cA i = false ∧ cW i = false) :
    retryLoop dial cA cW l last =
      (.error (.exhausted (match l.getLast? with
        | some j => some (f j)
        | none => last)), l.length, l.map (fun i => i + 1)) := by
  induction l generalizing last with
  | nil => simp [retryLoop]
  | cons i rest ih =>
    obtain ⟨hcA, hcW⟩ := hc i (List.mem_cons_self i rest)
    rw [retryLoop, hd i (List.mem_cons_self i rest)]
    simp only [hcA, hcW, Bool.false_eq_true, if_false]
    rw [ih (some (f i)) (fun j hj => hd j (List.mem_cons_of_mem i hj))
      (fun j hj => hc j (List.mem_cons_of_mem i hj))]
    cases rest with
    | nil => simp
    | cons j t =>
      have hex : ∀ (b : Nat) (u : List Nat), ∃ x, (b :: u).getLast? = some x := by
        intro b u
        induction u generalizing b with
        | nil => exact ⟨b, rfl⟩
        | cons a u ihu =>
          rw [List.getLast?_cons_cons]
          exact ihu a
      obtain ⟨x, hx⟩ := hex j t
      simp [hx]

theorem retryLoop_cancel_in_wait {E : Type} (dial : Nat → Except E Nat)
    (cA cW : Nat → Bool) (f : Nat → E) (l1 : List Nat) (k : Nat) (l2 : List Nat)
    (last : Option E)
    (hd : ∀ i ∈ l1, dial i = .error (f i))
    (hc : ∀ i ∈ l1, cA i = false ∧ cW i = false)
    (hdk : dial k = .error (f k)) (hcAk : cA k = false) (hcWk : cW k = true) :
    retryLoop dial cA cW (l1 ++ k :: l2) last =
      (.error .ctxCancelled, l1.length + 1, l1.map (fun i => i + 1)) := by
  induction l1 generalizing last with
  | nil =>
    rw [List.nil_append, retryLoop, hdk]
    simp [hcAk, hcWk]
  | cons i rest ih =>
    obtain ⟨hcA, hcW⟩ := hc i (List.mem_cons_self i rest)
    rw [List.cons_append, retryLoop, hd i (List.mem_cons_self i rest)]
    simp only [hcA, hcW, Bool.false_eq_true, if_false]
    rw [ih (some (f i)) (fun j hj => hd j (List.mem_cons_of_mem i hj))
      (fun j hj => hc j (List.mem_cons_of_mem i hj))]
    simp

theorem range_getLast? (n : Nat) (h : 0 < n) :
    (List.range n).getLast? = some (n - 1) := by
  cases n with
  | zero => omega
  | succ m =>
    rw [List.range_succ, List.getLast?_concat]
    simp

theorem range_split (k n : Nat) (h : k < n) :
    ∃ L, List.range n = List.range k ++ k :: L := by
  have h1 : n = k + (n - k) := by omega
  rw [h1, List.range_add]
  cases h2 : n - k with
  | zero => omega
  | succ m =>
    refine ⟨(List.range m).map (fun j => k + (j + 1)), ?_⟩
    rw [List.range_succ_eq_map]
    simp

end Speech

/-- C4: against a target whose every dial fails, `ConnectWithRetry` makes
exactly `maxRetries` attempts, waits the linearly increasing backoff list
`[1, 2, …, maxRetries]` seconds between (and after) attempts, and on
exhaustion returns the error wrapping the last dial error; if the context
fires during the backoff wait following attempt `k`, it returns the
context's error immediately, after `k + 1` attempts and only the first `k`
full waits. -/
theorem c4_connect_with_retry {E : Type} (maxRetries : Nat)
    (dial : Nat → Except E Nat) (cA cW : Nat → Bool) (f : Nat → E)
    (hd : ∀ i, i < maxRetries → dial i = .error (f i)) :
    (0 < maxRetries →
      (∀ i, i < maxRetries → cA i = false ∧ cW i = false) →
      Speech.ConnectWithRetry maxRetries dial cA cW =
        (.error (.exhausted (some (f (maxRetries - 1)))), maxRetries,
          (List.range maxRetries).map (fun i => i + 1))) ∧
    (∀ k, k < maxRetries →
      (∀ i, i < k → cA i = false ∧ cW i = false) →
      cA k = false → cW k = true →
      Speech.ConnectWithRetry maxRetries dial cA cW =
        (.error .ctxCancelled, k + 1, (List.range k).map (fun i => i + 1))) := by
  constructor
  · intro hpos hc
    unfold Speech.ConnectWithRetry
    rw [Speech.retryLoop_all_fail dial cA cW f (List.range maxRetries) none
      (fun i hi => hd i (List.mem_range.mp hi))
      (fun i hi => hc i (List.mem_range.mp hi))]
    rw [Speech.range_getLast? maxRetries hpos]
    simp
  · intro k hk hc hcAk hcWk
    obtain ⟨L, hL⟩ := Speech.range_split k maxRetries hk
    unfold Speech.ConnectWithRetry
    rw [hL]
    rw [Speech.retryLoop_cancel_in_wait dial cA cW f (List.range k) k L none
      (fun i hi => hd i (by have := List.mem_range.mp hi; omega))
      (fun i hi => hc i (List.mem_range.mp hi))
      (hd k hk) hcAk hcWk]
    simp

/-- C4 witness: three always-failing dials with no cancellation exhaust the
budget with waits `[1, 2, 3]`; cancellation during the second wait stops
after two attempts and one completed wait. -/
theorem c4_connect_with_retry_witness :
    Speech.ConnectWithRetry 3 (fun _ => .error "dial failed")
        (fun _ => false) (fun _ => false) =
      (.error (.exhausted (some "dial failed")), 3, [1, 2, 3]) ∧
    Speech.ConnectWithRetry 3 (fun _ => .error "dial failed")
        (fun _ => false) (fun i => i == 1) =
      (.error .ctxCancelled, 2, [1]) := by
  constructor
  · have h := (c4_connect_with_retry 3 (fun _ => .error "dial failed")
      (fun _ => false) (fun _ => false) (fun _ => "dial failed")
      (fun _ _ => rfl)).1 (by decide) (fun _ _ => ⟨rfl, rfl⟩)
    simpa using h
  · have h := (c4_connect_with_retry 3 (fun _ => .error "dial failed")
      (fun _ => false) (fun i => i == 1) (fun _ => "dial failed")
      (fun _ _ => rfl)).2 1 (by decide) (by decide) rfl rfl
    simpa using h

namespace TTS

theorem flatLoop_innerLoop {α E R : Type} (attempt : α → Except E R)
    (isMismatch : E → Bool) (g rest : List α) (m last : Option E) :
    flatLoop attempt isMismatch (g ++ rest)
        (match m with | some e => some e | none => last) =
      match innerLoop attempt isMismatch g m with
      | .done r => r
      | .exhausted m2 =>
        flatLoop attempt isMismatch rest
          (match m2 with | some e => some e | none => last) := by
  induction g generalizing m with
  | nil => rfl
  | cons c cs ih =>
    rw [List.cons_append, flatLoop, innerLoop]
    cases attempt c with
    | ok r => rfl
    | error e =>
      by_cases hm : isMismatch e
      · simp only [hm, if_true]
        exact ih (some e)
      · simp [hm]

theorem speakerLoop_flatten {α E R : Type} (attempt : α → Except E R)
    (isMismatch : E → Bool) (groups : List (List α)) (last : Option E) :
    speakerLoop attempt isMismatch groups last =
      flatLoop attempt isMismatch groups.join last := by
  induction groups generalizing last with
  | nil => rfl
  | cons g rest ih =>
    rw [speakerLoop]
    rw [show (g :: rest).join = g ++ rest.join from rfl]
    have h := flatLoop_innerLoop attempt isMismatch g rest.join none last
    simp only at h
    rw [h]
    cases innerLoop attempt isMismatch g none with
    | done r => rfl
    | exhausted m =>
      dsimp only
      rw [ih]

theorem flatLoop_mismatch_prefix {α E R : Type} (attempt : α → Except E R)
    (isMismatch : E → Bool) (f : α → E) (l1 rest : List α) (last : Option E)
    (he : ∀ d ∈ l1, attempt d = .error (f d) ∧ isMismatch (f d) = true) :
    flatLoop attempt isMismatch (l1 ++ rest) last =
      flatLoop attempt isMismatch rest
        (match l1.getLast? with | some d => some (f d) | none => last) := by
  induction l1 generalizing last with
  | nil => rfl
  | cons c cs ih =>
    obtain ⟨hd, hm⟩ := he c (List.mem_cons_self c cs)
    rw [List.cons_append, flatLoop, hd]
    simp only [hm, if_true]
    rw [ih (some (f c)) (fun d hdm => he d (List.mem_cons_of_mem c hdm))]
    cases cs with
    | nil => rfl
    | cons b u =>
      have hex : ∀ (b : α) (u : List α), ∃ x, (b :: u).getLast? = some x := by
        intro b u
        induction u generalizing b with
        | nil => exact ⟨b, rfl⟩
        | cons a u ihu =>
          rw [List.getLast?_cons_cons]
          exact ihu a
      obtain ⟨x, hx⟩ := hex b u
      rw [List.getLast?_cons_cons, hx]

theorem flatLoop_noCandidate {α E R : Type} (attempt : α → Except E R)
    (isMismatch : E → Bool) (l : List α) (last : Option E)
    (h : flatLoop attempt isMismatch l last = .noCandidate) :
    l = [] ∧ last = none := by
  induction l generalizing last with
  | nil =>
    cases last with
    | none => exact ⟨rfl, rfl⟩
    | some e => exact absurd h (by rw [flatLoop]; simp)
  | cons c cs ih =>
    rw [flatLoop] at h
    cases hac : attempt c with
    | ok r => simp [hac] at h
    | error e =>
      by_cases hm : isMismatch e
      · simp only [hac, hm, if_true] at h
        obtain ⟨-, h2⟩ := ih (some e) h
        cases h2
      · simp [hac, hm] at h

end TTS

/-- C3: in the voice×resource candidate iteration of `SynthesizeSpeechWS`,
a resource-mismatch error is non-fatal — every candidate before the first
non-mismatch outcome is skipped, and a later success is returned with no
trace of the earlier mismatches; any other upstream error aborts the call
immediately; if every candidate mismatches, the call fails with the last
recorded mismatch error; and the generic no-candidate error occurs exactly
when there is no candidate at all (in particular, never when some candidate
produced a mismatch). -/
theorem c3_tts_candidate_fallback {α E R : Type} (attempt : α → Except E R)
    (isMismatch : E → Bool) (speakers : List (List α)) (f : α → E) :
    (∀ (l1 : List α) (c : α) (l2 : List α) (r : R),
      speakers.join = l1 ++ c :: l2 →
      (∀ d ∈ l1, attempt d = .error (f d) ∧ isMismatch (f d) = true) →
      attempt c = .ok r →
      TTS.SynthesizeSpeechWS attempt isMismatch speakers = .ok r) ∧
    (∀ (l1 : List α) (c : α) (l2 : List α) (e : E),
      speakers.join = l1 ++ c :: l2 →
      (∀ d ∈ l1, attempt d = .error (f d) ∧ isMismatch (f d) = true) →
      attempt c = .error e → isMismatch e = false →
      TTS.SynthesizeSpeechWS attempt isMismatch speakers = .fail e) ∧
    (∀ (l1 : List α) (c : α),
      speakers.join = l1 ++ [c] →
      (∀ d ∈ l1 ++ [c], attempt d = .error (f d) ∧ isMismatch (f d) = true) →
      TTS.SynthesizeSpeechWS attempt isMismatch speakers = .fail (f c)) ∧
    (TTS.SynthesizeSpeechWS attempt isMismatch speakers = .noCandidate ↔
      speakers.join = []) := by
  refine ⟨?_, ?_, ?_, ?_⟩
  · intro l1 c l2 r hsplit hmis hok
    rw [TTS.SynthesizeSpeechWS, TTS.speakerLoop_flatten, hsplit,
      TTS.flatLoop_mismatch_prefix attempt isMismatch f l1 (c :: l2) none hmis,
      TTS.flatLoop, hok]
  · intro l1 c l2 e hsplit hmis herr hnm
    rw [TTS.SynthesizeSpeechWS, TTS.speakerLoop_flatten, hsplit,
      TTS.flatLoop_mismatch_prefix attempt isMismatch f l1 (c :: l2) none hmis,
      TTS.flatLoop, herr]
    simp [hnm]
  · intro l1 c hsplit hmis
    have hmis1 : ∀ d ∈ l1, attempt d = .error (f d) ∧ isMismatch (f d) = true :=
      fun d hd => hmis d (List.mem_append_left [c] hd)
    obtain ⟨hdc, hmc⟩ := hmis c (List.mem_append_right l1 (List.mem_singleton_self c))
    rw [TTS.SynthesizeSpeechWS, TTS.speakerLoop_flatten, hsplit,
      TTS.flatLoop_mismatch_prefix attempt isMismatch f l1 [c] none hmis1,
      TTS.flatLoop, hdc]
    simp only [hmc, if_true]
    rfl
  · constructor
    · intro h
      rw [TTS.SynthesizeSpeechWS, TTS.speakerLoop_flatten] at h
      exact (TTS.flatLoop_noCandidate attempt isMismatch speakers.join none h).1
    · intro h
      rw [TTS.SynthesizeSpeechWS, TTS.speakerLoop_flatten, h]
      rfl

/-- C3 witness: with the real mismatch classifier, the first voice's two
resources mismatch and the second voice's resource succeeds — the success
is returned with no trace of the mismatches; if every candidate mismatches,
the recorded mismatch error is returned; with no candidates at all, the
generic no-candidate error results. -/
theorem c3_tts_candidate_fallback_witness :
    TTS.SynthesizeSpeechWS
        (fun d => if d = 2 then Except.ok 42
          else Except.error "resource ID is mismatched with speaker related resource")
        TTS.isResourceMismatchError [[0, 1], [2]] = .ok 42 ∧
    TTS.SynthesizeSpeechWS
        (fun _ : Nat =>
          (Except.error "resource ID is mismatched with speaker related resource" :
            Except String Nat))
        TTS.isResourceMismatchError [[0, 1], [2]] =
      .fail "resource ID is mismatched with speaker related resource" ∧
    TTS.SynthesizeSpeechWS
        (fun d => if d = 2 then Except.ok 42
          else Except.error "resource ID is mismatched with speaker related resource")
        TTS.isResourceMismatchError [] = .noCandidate := by
  refine ⟨?_, ?_, ?_⟩
  · exact (c3_tts_candidate_fallback _ TTS.isResourceMismatchError [[0, 1], [2]]
      (fun _ => "resource ID is mismatched with speaker related resource")).1
      [0, 1] 2 [] 42 (by decide) (by decide) (by decide)
  · exact (c3_tts_candidate_fallback _ TTS.isResourceMismatchError [[0, 1], [2]]
      (fun _ => "resource ID is mismatched with speaker related resource")).2.2.1
      [0, 1] 2 (by decide) (by decide)
  · exact (c3_tts_candidate_fallback
      (fun d => if d = 2 then Except.ok 42
        else Except.error "resource ID is mismatched with speaker related resource")
      TTS.isResourceMismatchError []
      (fun _ => "resource ID is mismatched with speaker related resource")).2.2.2.mpr
      (by decide)

namespace Speech

theorem createAudio_not_last (audio : List Nat) (s : Int) (comp : Nat) (hs : 0 < s) :
    (CreateAudioOnlyRequest audio s false comp).header.messageFlags =
        PositiveSequenceNumber ∧
      (CreateAudioOnlyRequest audio s false comp).sequence = s ∧
      (CreateAudioOnlyRequest audio s false comp).IsLastPacket = false := by
  simp only [CreateAudioOnlyRequest]
  rw [if_neg (by simp : ¬false = true), if_pos hs]
  refine ⟨rfl, rfl, ?_⟩
  simp [Message.IsLastPacket, NewHeader, PositiveSequenceNumber, LastPacketNoSequence,
    NegativeSequenceNumber]

theorem createAudio_last (audio : List Nat) (s : Int) (comp : Nat) (hs : s ≠ 0)
    (h1 : -(2 ^ 31) < s) (h2 : s < 2 ^ 31) :
    (CreateAudioOnlyRequest audio s true comp).header.messageFlags =
        NegativeSequenceNumber ∧
      (CreateAudioOnlyRequest audio s true comp).sequence = -s ∧
      (CreateAudioOnlyRequest audio s true comp).IsLastPacket = true := by
  simp only [CreateAudioOnlyRequest]
  rw [if_pos trivial, if_pos hs]
  refine ⟨rfl, ?_, ?_⟩
  · show wrap32 (-s) = -s
    rw [wrap32]
    omega
  · simp [Message.IsLastPacket, NewHeader, LastPacketNoSequence, NegativeSequenceNumber]

theorem get_cons_zero {β : Type} (a : β) (l : List β) (h : 0 < (a :: l).length) :
    (a :: l).get ⟨0, h⟩ = a := rfl

theorem get_cons_succ {β : Type} (a : β) (l : List β) (k : Nat)
    (h : k + 1 < (a :: l).length) :
    (a :: l).get ⟨k + 1, h⟩ = l.get ⟨k, Nat.lt_of_succ_lt_succ h⟩ := rfl

theorem sendAudioFrames_spec (compress : List Nat → List Nat) :
    ∀ (n : Nat) (audio : List Nat) (s : Int), audio.length = n → audio ≠ [] →
      1 ≤ s → (s : Int) + audio.length ≤ 2 ^ 31 →
      (sendAudioFrames compress audio s).length =
          (audio.length + chunkSize - 1) / chunkSize ∧
        (∀ k (hk : k < (sendAudioFrames compress audio s).length),
          (((sendAudioFrames compress audio s).get ⟨k, hk⟩).IsLastPacket = true ↔
            k = (sendAudioFrames compress audio s).length - 1)) ∧
        (∀ k (hk : k < (sendAudioFrames compress audio s).length),
          ((sendAudioFrames compress audio s).get ⟨k, hk⟩).sequence =
            if k = (sendAudioFrames compress audio s).length - 1 then -(s + k)
            else s + k) := by
  intro n
  induction n using Nat.strong_induction_on with
  | _ n ih =>
    intro audio s hn h0 hs hb
    have hpos : 0 < audio.length := List.length_pos.mpr h0
    rw [sendAudioFrames, dif_neg h0]
    by_cases hlast : audio.length ≤ chunkSize
    · rw [if_pos hlast, decide_eq_true hlast]
      have hml := createAudio_last (compress (audio.take chunkSize)) s GzipCompression
        (by omega) (by omega) (by omega)
      have hcnt : (audio.length + chunkSize - 1) / chunkSize = 1 := by
        rw [chunkSize] at hlast ⊢
        omega
      refine ⟨by simp [hcnt], ?_, ?_⟩
      · intro k hk
        have hk0 : k = 0 := by simpa using hk
        subst hk0
        simpa using hml.2.2
      · intro k hk
        have hk0 : k = 0 := by simpa using hk
        subst hk0
        simpa using hml.2.1
    · rw [if_neg hlast, decide_eq_false hlast]
      have hCle : chunkSize < audio.length := by omega
      have hdlen : (audio.drop chunkSize).length = audio.length - chunkSize := by simp
      have hdne : audio.drop chunkSize ≠ [] := by
        intro hnil
        have h2 := congrArg List.length hnil
        rw [hdlen] at h2
        simp at h2
        omega
      have hsub : audio.length - chunkSize < n := by
        rw [← hn]
        have hC : 0 < chunkSize := by rw [chunkSize]; omega
        omega
      obtain ⟨hl, hflag, hseq⟩ := ih (audio.length - chunkSize) hsub
        (audio.drop chunkSize) (s + 1) hdlen hdne (by omega)
        (by rw [hdlen]; push_cast; omega)
      have hmh := createAudio_not_last (compress (audio.take chunkSize)) s
        GzipCompression (by omega)
      set tl := sendAudioFrames compress (audio.drop chunkSize) (s + 1) with htldef
      have htl : 1 ≤ tl.length := by
        rw [hl, hdlen]
        rw [chunkSize] at hCle ⊢
        omega
      refine ⟨?_, ?_, ?_⟩
      · rw [List.length_cons, hl, hdlen]
        rw [chunkSize] at hCle ⊢
        omega
      · intro k hk
        cases k with
        | zero =>
          rw [get_cons_zero, hmh.2.2]
          simp only [Bool.false_eq_true, false_iff, List.length_cons]
          omega
        | succ k =>
          rw [get_cons_succ]
          have hk2 : k < tl.length := by
            rw [List.length_cons] at hk
            omega
          rw [hflag k hk2]
          simp only [List.length_cons]
          omega
      · intro k hk
        cases k with
        | zero =>
          rw [get_cons_zero, hmh.2.1]
          rw [if_neg (by simp only [List.length_cons]; omega)]
          simp
        | succ k =>
          rw [get_cons_succ]
          have hk2 : k < tl.length := by
            rw [List.length_cons] at hk
            omega
          rw [hseq k hk2]
          simp only [List.length_cons]
          by_cases hkl : k = tl.length - 1
          · rw [if_pos hkl, if_pos (by omega)]
            push_cast
            ring
          · rw [if_neg hkl, if_neg (by omega)]
            push_cast
            ring

end Speech

/-- C2 (counterexample): the claim that the wire sequence numbers are
strictly increasing starting from 2 fails.  For a 1-byte audio input the
loop sends exactly one frame — the terminal one — and
`CreateAudioOnlyRequest` negates its sequence counter, so the frame carries
wire sequence `-2`, not `2`. -/
theorem c2_wire_sequence_counterexample :
    Speech.sendAudioData (fun l => l) [0] =
      .ok [Speech.CreateAudioOnlyRequest [0] 2 true Speech.GzipCompression] ∧
    (Speech.CreateAudioOnlyRequest [0] 2 true Speech.GzipCompression).sequence = -2 ∧
    (Speech.CreateAudioOnlyRequest [0] 2 true Speech.GzipCompression).IsLastPacket =
      true := by
  refine ⟨?_, ?_, ?_⟩
  · rw [Speech.sendAudioData, if_neg (by decide : ¬([0] : List Nat) = [])]
    rw [Speech.sendAudioFrames, dif_neg (by decide : ¬([0] : List Nat) = [])]
    rw [if_pos (by decide : ([0] : List Nat).length ≤ Speech.chunkSize)]
    rw [decide_eq_true (by decide : ([0] : List Nat).length ≤ Speech.chunkSize)]
    rw [show ([0] : List Nat).take Speech.chunkSize = [0] from by decide]
  · exact (Speech.createAudio_last [0] 2 Speech.GzipCompression (by decide) (by decide)
      (by decide)).2.1
  · exact (Speech.createAudio_last [0] 2 Speech.GzipCompression (by decide) (by decide)
      (by decide)).2.2

/-- C2 (amended): for every non-empty audio input of `L` bytes (of
realistic size) and the fixed chunk size `C = 6400`, the send loop emits
exactly `⌈L/C⌉` AudioOnlyRequest frames, of which exactly the last carries
a terminal flag; the per-frame sequence counters increase strictly from 2,
and the wire value of frame `k` equals its counter `2 + k` except on the
last frame, which carries the negation `-(2 + k)` of its counter (the
negative value is how termination is marked on the wire). -/
theorem c2_asr_send_loop (compress : List Nat → List Nat) (audio : List Nat)
    (h0 : audio ≠ []) (hlen : (audio.length : Int) ≤ 2 ^ 31 - 2) :
    Speech.sendAudioData compress audio =
        .ok (Speech.sendAudioFrames compress audio 2) ∧
      (Speech.sendAudioFrames compress audio 2).length =
        (audio.length + Speech.chunkSize - 1) / Speech.chunkSize ∧
      (∀ k (hk : k < (Speech.sendAudioFrames compress audio 2).length),
        (((Speech.sendAudioFrames compress audio 2).get ⟨k, hk⟩).IsLastPacket = true ↔
          k = (Speech.sendAudioFrames compress audio 2).length - 1)) ∧
      (∀ k (hk : k < (Speech.sendAudioFrames compress audio 2).length),
        ((Speech.sendAudioFrames compress audio 2).get ⟨k, hk⟩).sequence =
          if k = (Speech.sendAudioFrames compress audio 2).length - 1
          then -(2 + (k : Int)) else 2 + (k : Int)) := by
  have h := Speech.sendAudioFrames_spec compress audio.length audio 2 rfl h0
    (by norm_num) (by omega)
  exact ⟨by rw [Speech.sendAudioData, if_neg h0], h.1, h.2.1, h.2.2⟩

/-- C2 witness: a 1-byte audio input is accepted and yields exactly
`⌈1/6400⌉ = 1` frame. -/
theorem c2_asr_send_loop_witness :
    Speech.sendAudioData (fun l => l) [5] =
        .ok (Speech.sendAudioFrames (fun l => l) [5] 2) ∧
      (Speech.sendAudioFrames (fun l => l) [5] 2).length = 1 := by
  have h := c2_asr_send_loop (fun l => l) [5] (by decide) (by decide)
  refine ⟨h.1, ?_⟩
  rw [h.2.1]
  decide
